import Mathlib

/-!
# postcli: text utilities and the homepage/feed synchronizer

A shallow embedding of `cmd/postcli/main.go`: `slugify`, `normalizeSlug`, `escapeHTML`,
`escapeXML`, `validateDate`, `formatRSSDate`, `formatDisplayDate`, `extractMeta`,
`extractTitle` and `updateIndexAndFeed`, together with the parts of the Go standard library they call
(`strings`, `unicode`, `regexp`, `time`, `fmt`, `filepath`), modelled as far as the program
uses them.

Conventions.

* A Go `string` is a list of code points (`GoString`); the strings of the program are valid
  UTF-8 text. Where the source counts or indexes bytes (`validateDate`), the model goes
  through the UTF-8 encoding (`goBytes`).
* Go's Unicode tables are written out for Latin-1 and are a parameter (`unicode.Tables`)
  above it.
* Years are natural numbers: `time.Parse` with the layout `2006-01-02` takes four digits.
* The file system is the three files `updateIndexAndFeed` touches (`Site`); a file that
  cannot be read is `none`, and writing a file that was read succeeds.

The first half of the file holds the definitions, the second half the theorems.
-/

namespace Postcli

/-- A Go string holding valid UTF-8 text, as its sequence of code points. -/
abbrev GoString := List Char

/-! ## Package `unicode` -/

namespace unicode

/-- Go's Unicode tables above Latin-1: the letters, the numbers, the lower-case mapping and
the simple case folds (`fold a c`: `c` is in the fold orbit of `a`). -/
structure Tables where
  letter : Char → Bool
  number : Char → Bool
  lower : Char → Char
  fold : Char → Char → Bool

/-- Tables with nothing above Latin-1; they serve to run the program on Latin-1 text. -/
def latin1 : Tables where
  letter := fun _ => false
  number := fun _ => false
  lower := fun c => c
  fold := fun a c => a == c

/-- Go `unicode.IsSpace`. -/
def IsSpace (c : Char) : Bool :=
  let n := c.toNat
  n == 0x09 || n == 0x0A || n == 0x0B || n == 0x0C || n == 0x0D || n == 0x20
    || n == 0x85 || n == 0xA0 || n == 0x1680 || (0x2000 ≤ n && n ≤ 0x200A)
    || n == 0x2028 || n == 0x2029 || n == 0x202F || n == 0x205F || n == 0x3000

/-- Go `unicode.IsLetter`: the Latin-1 letters are `A`-`Z`, `a`-`z`, U+00AA, U+00B5, U+00BA,
U+00C0-U+00D6, U+00D8-U+00F6 and U+00F8-U+00FF. -/
def IsLetter (T : Tables) (c : Char) : Bool :=
  let n := c.toNat
  if n ≤ 0xFF then
    (0x41 ≤ n && n ≤ 0x5A) || (0x61 ≤ n && n ≤ 0x7A) || n == 0xAA || n == 0xB5 || n == 0xBA
      || (0xC0 ≤ n && n ≤ 0xD6) || (0xD8 ≤ n && n ≤ 0xF6) || (0xF8 ≤ n && n ≤ 0xFF)
  else T.letter c

/-- Go `unicode.IsNumber`: the Latin-1 numbers are `0`-`9`, U+00B2, U+00B3, U+00B9 and
U+00BC-U+00BE. -/
def IsNumber (T : Tables) (c : Char) : Bool :=
  let n := c.toNat
  if n ≤ 0xFF then
    (0x30 ≤ n && n ≤ 0x39) || n == 0xB2 || n == 0xB3 || n == 0xB9 || (0xBC ≤ n && n ≤ 0xBE)
  else T.number c

/-- Go `unicode.ToLower`: ASCII is handled in the code, and in Latin-1 the capitals
U+00C0-U+00D6 and U+00D8-U+00DE move up by 32. -/
def ToLower (T : Tables) (c : Char) : Char :=
  let n := c.toNat
  if n ≤ 0x7F then
    if 0x41 ≤ n && n ≤ 0x5A then Char.ofNat (n + 32) else c
  else if n ≤ 0xFF then
    if (0xC0 ≤ n && n ≤ 0xD6) || (0xD8 ≤ n && n ≤ 0xDE) then Char.ofNat (n + 32) else c
  else T.lower c

end unicode

/-! ## Package `strings` -/

namespace strings

/-- Go `strings.TrimSpace`: white space is cut from both ends. -/
def TrimSpace (s : GoString) : GoString :=
  ((s.dropWhile unicode.IsSpace).reverse.dropWhile unicode.IsSpace).reverse

/-- Go `strings.ToLower`: every code point through `unicode.ToLower`. -/
def ToLower (T : unicode.Tables) (s : GoString) : GoString :=
  s.map (unicode.ToLower T)

/-- Scan of `strings.Replace` with a non-empty `old`: `skip` counts the characters of a
match that are still to be dropped. -/
def replaceScan (old new : GoString) : Nat → GoString → GoString
  | _, [] => []
  | skip + 1, _ :: rest => replaceScan old new skip rest
  | 0, c :: rest =>
    if old.isPrefixOf (c :: rest) then new ++ replaceScan old new (old.length - 1) rest
    else c :: replaceScan old new 0 rest

/-- Go `strings.ReplaceAll(s, old, new)`: every non-overlapping occurrence of `old`, found
left to right, is replaced by `new`; an empty `old` matches before every code point and at
the end. -/
def ReplaceAll (s old new : GoString) : GoString :=
  if old = [] then new ++ s.flatMap (fun c => c :: new) else replaceScan old new 0 s

/-- Go `strings.Index(s, substr)`: where `substr` first occurs in `s`; `none` stands for
`-1`. Positions count code points, and so do the slices taken at them: in valid UTF-8 an
occurrence of an ASCII marker starts on a code point boundary. -/
def Index : GoString → GoString → Option Nat
  | [], substr => if substr.isEmpty then some 0 else none
  | c :: rest, substr =>
    if substr.isPrefixOf (c :: rest) then some 0
    else (Index rest substr).map (fun i => i + 1)

/-- Go `strings.TrimSuffix`. -/
def TrimSuffix (s suffix : GoString) : GoString :=
  if suffix.isSuffixOf s then s.take (s.length - suffix.length) else s

end strings

/-! ## Package `path/filepath` -/

namespace filepath

/-- Go `filepath.Base` with `/` as the separator. -/
def Base (path : GoString) : GoString :=
  if path.isEmpty then ".".toList
  else
    let path := (path.reverse.dropWhile (fun c => c == '/')).reverse
    let path := (path.reverse.takeWhile (fun c => c != '/')).reverse
    if path.isEmpty then "/".toList else path

end filepath

/-! ## Package `regexp`

A backtracking matcher (leftmost-first, as Go's `regexp` matches) for the patterns of the
program: sequences of single-character classes, greedy repetitions of such a class, `^`,
`$`, one capturing group, and alternatives at top level. None of the program's patterns
matches the empty string, so the rule of `ReplaceAllString` for empty matches is left out. -/

namespace regexp

/-- One item of a pattern. -/
inductive Atom where
  | chr (p : Char → Bool)
  | star (p : Char → Bool)
  | bol
  | eol
  | capOpen
  | capClose

/-- A pattern: alternatives, each a sequence of items. -/
abbrev Regexp := List (List Atom)

/-- A successful match: where it ends and what the group spans (positions in the text). -/
structure Match where
  stop : Nat
  capStart : Nat
  capStop : Nat
deriving DecidableEq, Repr

/-- Greedy repetition: take as many characters of the class as the rest of the pattern
(`k`) allows, the most first. -/
def greedy (p : Char → Bool) (k : Nat → GoString → Option Match) : Nat → GoString → Option Match
  | pos, [] => k pos []
  | pos, c :: rest =>
    if p c then
      match greedy p k (pos + 1) rest with
      | some m => some m
      | none => k pos (c :: rest)
    else k pos (c :: rest)

/-- Match a sequence of items at position `pos`, `inp` being the text from there on. -/
def matchHere : List Atom → Nat → GoString → Nat → Nat → Option Match
  | [], pos, _, cs, ce => some ⟨pos, cs, ce⟩
  | .chr p :: more, pos, inp, cs, ce =>
    match inp with
    | c :: rest => if p c then matchHere more (pos + 1) rest cs ce else none
    | [] => none
  | .star p :: more, pos, inp, cs, ce =>
    greedy p (fun pos2 rest => matchHere more pos2 rest cs ce) pos inp
  | .bol :: more, pos, inp, cs, ce => if pos = 0 then matchHere more pos inp cs ce else none
  | .eol :: more, pos, inp, cs, ce => if inp.isEmpty then matchHere more pos inp cs ce else none
  | .capOpen :: more, pos, inp, _, ce => matchHere more pos inp pos ce
  | .capClose :: more, pos, inp, cs, _ => matchHere more pos inp cs pos

/-- The first alternative that matches at `pos`. -/
def matchAlt : Regexp → Nat → GoString → Option Match
  | [], _, _ => none
  | alt :: more, pos, inp =>
    match matchHere alt pos inp 0 0 with
    | some m => some m
    | none => matchAlt more pos inp

/-- The leftmost match at or after `pos`, with its start. -/
def find (re : Regexp) : Nat → GoString → Option (Nat × Match)
  | pos, [] => (matchAlt re pos []).map (fun m => (pos, m))
  | pos, c :: rest =>
    match matchAlt re pos (c :: rest) with
    | some m => some (pos, m)
    | none => find re (pos + 1) rest

/-- The text between two positions, `s[i:j]`. -/
def slice (s : GoString) (i j : Nat) : GoString := (s.take j).drop i

/-- Go `(*Regexp).FindStringSubmatch` for a pattern with one group: the match and the group,
or the empty list. -/
def FindStringSubmatch (re : Regexp) (s : GoString) : List GoString :=
  match find re 0 s with
  | some (start, m) => [slice s start m.stop, slice s m.capStart m.capStop]
  | none => []

/-- Scan of `ReplaceAllString`: `skip` counts the characters of a match still to be
dropped. -/
def replaceScan (re : Regexp) (repl : GoString) : Nat → Nat → GoString → GoString
  | _, _, [] => []
  | pos, skip + 1, _ :: rest => replaceScan re repl (pos + 1) skip rest
  | pos, 0, c :: rest =>
    match matchAlt re pos (c :: rest) with
    | some m =>
      if pos < m.stop then repl ++ replaceScan re repl (pos + 1) (m.stop - pos - 1) rest
      else c :: replaceScan re repl (pos + 1) 0 rest
    | none => c :: replaceScan re repl (pos + 1) 0 rest

/-- Go `(*Regexp).ReplaceAllString` with a replacement that holds no `$`. -/
def ReplaceAllString (re : Regexp) (src repl : GoString) : GoString :=
  replaceScan re repl 0 0 src

/-- The class of the hyphen. -/
def isHyphen (c : Char) : Bool := c == '-'

/-- Pattern `-+`. -/
def hyphenRun : Regexp := [[.chr isHyphen, .star isHyphen]]

/-- Pattern `^-|-$`. -/
def edgeHyphen : Regexp := [[.bol, .chr isHyphen], [.chr isHyphen, .eol]]

/-- Lower-case form of an ASCII code point. -/
def asciiFold (n : Nat) : Nat := if 65 ≤ n ∧ n ≤ 90 then n + 32 else n

/-- The code points a literal `a` matches under the flag `(?i)`: its simple case folds. For
an ASCII `a` these are its two cases and, for `k` and `s`, the Kelvin sign and the long s;
above ASCII they come from the tables. -/
def foldEq (T : unicode.Tables) (a c : Char) : Bool :=
  if a.toNat < 128 then
    (c.toNat < 128 && asciiFold c.toNat == asciiFold a.toNat)
      || (asciiFold a.toNat == 107 && c.toNat == 0x212A)
      || (asciiFold a.toNat == 115 && c.toNat == 0x17F)
  else T.fold a c

/-- A literal string under `(?i)`. -/
def literal (T : unicode.Tables) (s : GoString) : List Atom :=
  s.map (fun a => Atom.chr (foldEq T a))

/-- The class `\s`. -/
def isSpaceClass (c : Char) : Bool :=
  c == '\t' || c == '\n' || c.toNat == 0x0C || c == '\r' || c == ' '

/-- The pattern of `extractMeta`, `(?i)<meta\s+[^>]*ATTR="VALUE"[^>]*content="([^"]*)"`;
`regexp.QuoteMeta` makes `attr` and `value` literals. -/
def metaPattern (T : unicode.Tables) (attr value : GoString) : Regexp :=
  [literal T "<meta".toList ++ [.chr isSpaceClass, .star isSpaceClass, .star (fun c => c != '>')]
    ++ literal T attr ++ literal T "=\"".toList ++ literal T value ++ literal T "\"".toList
    ++ [.star (fun c => c != '>')] ++ literal T "content=\"".toList
    ++ [.capOpen, .star (fun c => c != '"'), .capClose] ++ literal T "\"".toList]

/-- The pattern `(?i)<title>([^<]+)</title>`. -/
def titlePattern (T : unicode.Tables) : Regexp :=
  [literal T "<title>".toList
    ++ [.capOpen, .chr (fun c => c != '<'), .star (fun c => c != '<'), .capClose]
    ++ literal T "</title>".toList]

end regexp

/-! ## String helpers of the program -/

/-- The string `slugify` builds in its loop, before the two regular expressions. -/
def slugBuilder (T : unicode.Tables) (s : GoString) : GoString :=
  (strings.ToLower T (strings.TrimSpace s)).foldl (fun (b : GoString) r =>
    if unicode.IsLetter T r || unicode.IsNumber T r || r == '-' then b ++ [r]
    else if r == ' ' || r == '\t' then b ++ ['-']
    else b) []

/-- Source `slugify`: the built string, with `^-|-$` replaced by nothing and then `-+` by
one hyphen. -/
def slugify (T : unicode.Tables) (s : GoString) : GoString :=
  let b := slugBuilder T s
  regexp.ReplaceAllString regexp.hyphenRun
    (regexp.ReplaceAllString regexp.edgeHyphen b "".toList) "-".toList

/-- Source `escapeHTML`. -/
def escapeHTML (s : GoString) : GoString :=
  let s := strings.ReplaceAll s "&".toList "&amp;".toList
  let s := strings.ReplaceAll s "<".toList "&lt;".toList
  let s := strings.ReplaceAll s ">".toList "&gt;".toList
  let s := strings.ReplaceAll s "\"".toList "&quot;".toList
  s

/-- Source `escapeXML`. -/
def escapeXML (s : GoString) : GoString :=
  let s := strings.ReplaceAll s "&".toList "&amp;".toList
  let s := strings.ReplaceAll s "<".toList "&lt;".toList
  let s := strings.ReplaceAll s ">".toList "&gt;".toList
  let s := strings.ReplaceAll s "\"".toList "&quot;".toList
  s

/-! ## Bytes of a string -/

/-- UTF-8 encoding of one code point, as byte values. -/
def utf8Bytes (c : Char) : List Nat :=
  let v := c.toNat
  if v < 0x80 then [v]
  else if v < 0x800 then [0xC0 + v / 64, 0x80 + v % 64]
  else if v < 0x10000 then [0xE0 + v / 4096, 0x80 + v / 64 % 64, 0x80 + v % 64]
  else [0xF0 + v / 262144, 0x80 + v / 4096 % 64, 0x80 + v / 64 % 64, 0x80 + v % 64]

/-- The bytes of a Go string: `len(s)` is the length of this list and `s[i]` its `i`-th
entry. -/
def goBytes (s : GoString) : List Nat := s.flatMap utf8Bytes

/-! ## Package `time` (layout `2006-01-02`, location UTC)

The arithmetic is that of Go 1.22: an instant is kept as seconds since the absolute epoch,
1 January of the year -292277022399, a Monday. -/

namespace time

/-- Go `secondsPerDay`. -/
def secondsPerDay : Nat := 86400

/-- Go `secondsPerWeek`. -/
def secondsPerWeek : Nat := 604800

/-- Go `daysPer400Years`. -/
def daysPer400Years : Nat := 365 * 400 + 97

/-- Go `daysPer100Years`. -/
def daysPer100Years : Nat := 365 * 100 + 24

/-- Go `daysPer4Years`. -/
def daysPer4Years : Nat := 365 * 4 + 1

/-- The year of the absolute epoch is `-absoluteYearOffset`. -/
def absoluteYearOffset : Nat := 292277022399

/-- Go `daysBefore`: days in a non-leap year before the end of month `m`. -/
def daysBefore : List Nat := [0, 31, 59, 90, 120, 151, 181, 212, 243, 273, 304, 334, 365]

/-- Go `longDayNames`. -/
def longDayNames : List String :=
  ["Sunday", "Monday", "Tuesday", "Wednesday", "Thursday", "Friday", "Saturday"]

/-- Go `longMonthNames`. -/
def longMonthNames : List String :=
  ["January", "February", "March", "April", "May", "June", "July", "August", "September",
   "October", "November", "December"]

/-- Go `isLeap`. -/
def isLeap (year : Nat) : Bool :=
  year % 4 == 0 && (year % 100 != 0 || year % 400 == 0)

/-- Go `daysIn`. -/
def daysIn (m year : Nat) : Nat :=
  if m == 2 && isLeap year then 29
  else daysBefore.getD m 0 - daysBefore.getD (m - 1) 0

/-- Go `isDigit(s, i)`: the byte at `i` exists and is a digit. -/
def isDigit (s : List Nat) (i : Nat) : Bool :=
  match s[i]? with
  | none => false
  | some c => 48 ≤ c && c ≤ 57

/-- Go `leadingInt`: the decimal digits at the start of `s`, and what follows them; `none`
on overflow of 63 bits. -/
def leadingInt : Nat → List Nat → Option (Nat × List Nat)
  | x, [] => some (x, [])
  | x, c :: rest =>
    if c < 48 || c > 57 then some (x, c :: rest)
    else if x > 2 ^ 63 / 10 then none
    else if x * 10 + (c - 48) > 2 ^ 63 then none
    else leadingInt (x * 10 + (c - 48)) rest

/-- Go `atoi` on a field that starts with a digit (the caller has checked `isDigit(value, 0)`,
so the sign branch is not taken): all of `s` must be digits. -/
def atoi (s : List Nat) : Option Nat :=
  match leadingInt 0 s with
  | some (q, []) => some q
  | _ => none

/-- Go `getnum`: one or two digits; with `isFixed` it must be two. -/
def getnum (s : List Nat) (isFixed : Bool) : Option (Nat × List Nat) :=
  if !isDigit s 0 then none
  else if !isDigit s 1 then
    if isFixed then none else some (s.getD 0 0 - 48, s.drop 1)
  else some ((s.getD 0 0 - 48) * 10 + (s.getD 1 0 - 48), s.drop 2)

/-- Go `skip(value, "-")`: the literal hyphen of the layout. -/
def skipHyphen : List Nat → Option (List Nat)
  | 45 :: rest => some rest
  | _ => none

/-- Go `daysSinceEpoch`: days from the absolute epoch to the first day of `year`. -/
def daysSinceEpoch (year : Nat) : Nat :=
  let y := year + absoluteYearOffset
  let n := y / 400
  let y := y - 400 * n
  let d := daysPer400Years * n
  let n := y / 100
  let y := y - 100 * n
  let d := d + daysPer100Years * n
  let n := y / 4
  let y := y - 4 * n
  let d := d + daysPer4Years * n
  let n := y
  d + 365 * n

/-- A `time.Time` in UTC with no sub-second part: seconds since the absolute epoch. -/
structure Time where
  abs : Nat
deriving DecidableEq, Repr

/-- Go `time.Date(year, month, day, 0, 0, 0, 0, UTC)` for a month in 1..12. -/
def Date (year month day : Nat) : Time :=
  let d := daysSinceEpoch year
  let d := d + daysBefore.getD (month - 1) 0
  let d := if isLeap year && month ≥ 3 then d + 1 else d
  let d := d + (day - 1)
  ⟨d * secondsPerDay⟩

/-- Go `time.Parse("2006-01-02", value)` on the bytes of `value`; `none` is a parse error. -/
def Parse (value : List Nat) : Option Time :=
  if value.length < 4 || !isDigit value 0 then none
  else
    match atoi (value.take 4) with
    | none => none
    | some year =>
      match skipHyphen (value.drop 4) with
      | none => none
      | some value =>
        match getnum value true with
        | none => none
        | some (month, value) =>
          if month ≤ 0 || 12 < month then none
          else
            match skipHyphen value with
            | none => none
            | some value =>
              match getnum value true with
              | none => none
              | some (day, value) =>
                if value.length != 0 then none
                else if day < 1 || day > daysIn month year then none
                else some (Date year month day)

/-- Go `absDate(abs, false)`: the year of an absolute time and the day within that year,
counted from 0. -/
def absYearDay (abs : Nat) : Nat × Nat :=
  let d := abs / secondsPerDay
  let n := d / daysPer400Years
  let y := 400 * n
  let d := d - daysPer400Years * n
  let n := d / daysPer100Years
  let n := n - n / 4
  let y := y + 100 * n
  let d := d - daysPer100Years * n
  let n := d / daysPer4Years
  let y := y + 4 * n
  let d := d - daysPer4Years * n
  let n := d / 365
  let n := n - n / 4
  let y := y + n
  let d := d - 365 * n
  (y - absoluteYearOffset, d)

/-- Go `absDate(abs, true)`: year, month and day of an absolute time. -/
def absDate (abs : Nat) : Nat × Nat × Nat :=
  match absYearDay abs with
  | (year, day) =>
    if isLeap year && day == 31 + 29 - 1 then (year, 2, 29)
    else
      let day := if isLeap year && day > 31 + 29 - 1 then day - 1 else day
      let month := day / 31
      let stop := daysBefore.getD (month + 1) 0
      if day ≥ stop then (year, month + 2, day - stop + 1)
      else (year, month + 1, day - daysBefore.getD month 0 + 1)

/-- Go `absWeekday`: 0 is Sunday. -/
def absWeekday (abs : Nat) : Nat :=
  let sec := (abs + 1 * secondsPerDay) % secondsPerWeek
  sec / secondsPerDay

/-- The digit `n` as a character. -/
def digitChar (n : Nat) : Char := Char.ofNat (48 + n)

/-- Go `appendInt(b, x, width)` for `x ≥ 0`: decimal, zero-padded to `width`. -/
def appendInt (x width : Nat) : GoString :=
  if width == 2 && x < 100 then [digitChar (x / 10), digitChar (x % 10)]
  else if width == 4 && x < 10000 then
    [digitChar (x / 100 / 10), digitChar (x / 100 % 10),
     digitChar (x % 100 / 10), digitChar (x % 100 % 10)]
  else
    let ds := Nat.toDigits 10 x
    List.replicate (width - ds.length) '0' ++ ds

/-- Go `t.UTC().Format("Mon, 02 Jan 2006 15:04:05 -0700")`. -/
def Format (t : Time) : GoString :=
  let date := absDate t.abs
  let year := date.1
  let month := date.2.1
  let day := date.2.2
  let sec := t.abs % secondsPerDay
  let hour := sec / 3600
  let min := sec % 3600 / 60
  let sec := sec % 60
  ((longDayNames.getD (absWeekday t.abs) "").toList.take 3) ++ ", ".toList
    ++ appendInt day 2 ++ " ".toList
    ++ ((longMonthNames.getD (month - 1) "").toList.take 3) ++ " ".toList
    ++ appendInt year 4 ++ " ".toList
    ++ appendInt hour 2 ++ ":".toList ++ appendInt min 2 ++ ":".toList ++ appendInt sec 2
    ++ " ".toList ++ ('+' :: (appendInt 0 2 ++ appendInt 0 2))

end time

/-! ## Dates in the program -/

/-- Source `months`. -/
def months : List String :=
  ["January", "February", "March", "April", "May", "June", "July", "August", "September",
   "October", "November", "December"]

/-- Source `validateDate`. -/
def validateDate (s : GoString) : Bool :=
  let b := goBytes s
  if b.length != 10 || b.getD 4 0 != 45 || b.getD 7 0 != 45 then false
  else (time.Parse b).isSome

/-- Source `formatRSSDate`; `none` is the error return. -/
def formatRSSDate (iso : GoString) : Option GoString :=
  match time.Parse (goBytes iso) with
  | none => none
  | some t => some (time.Format t)

/-! ## Package `fmt` (`Sscanf` with `%d-%d-%d`, `Sprintf` with `%d`) -/

namespace fmt

/-- Go `(*ss).SkipSpace` in `Sscanf`: white space is skipped, a newline is an error. -/
def skipSpace : GoString → Option GoString
  | [] => some []
  | c :: rest =>
    if c == '\r' && rest.head? == some '\n' then skipSpace rest
    else if c == '\n' then none
    else if !unicode.IsSpace c then some (c :: rest)
    else skipSpace rest

/-- A character of `0123456789`. -/
def isDecimalDigit (c : Char) : Bool := '0'.toNat ≤ c.toNat && c.toNat ≤ '9'.toNat

/-- Go `strconv.ParseInt(tok, 10, 64)` on the digits of a token, without its sign: `none`
when a character is not a digit. -/
def parseDigits : Nat → GoString → Option Nat
  | x, [] => some x
  | x, c :: rest => if isDecimalDigit c then parseDigits (x * 10 + (c.toNat - 48)) rest else none

/-- Go `(*ss).scanInt` for the verb `%d`: optional sign, then the longest run of the
characters `0123456789`, read as a 64-bit integer. -/
def scanInt (input : GoString) : Option (Int × GoString) :=
  match skipSpace input with
  | none => none
  | some [] => none
  | some (c :: rest) =>
    let neg := c == '-'
    let body := if c == '+' || c == '-' then rest else c :: rest
    let tok := body.takeWhile isDecimalDigit
    let after := body.dropWhile isDecimalDigit
    if tok.isEmpty then none
    else
      match parseDigits 0 tok with
      | none => none
      | some n =>
        if neg then (if n > 2 ^ 63 then none else some (- (n : Int), after))
        else (if n ≥ 2 ^ 63 then none else some ((n : Int), after))

/-- A literal hyphen of the format: the next input character must be that one. -/
def matchHyphen : GoString → Option GoString
  | '-' :: rest => some rest
  | _ => none

/-- Go `fmt.Sscanf(input, "%d-%d-%d", &y, &m, &d)` with the error dropped: the operands
scanned before the first failure are set, the others keep their zero value. -/
def Sscanf3 (input : GoString) : Int × Int × Int :=
  match scanInt input with
  | none => (0, 0, 0)
  | some (y, r1) =>
    match matchHyphen r1 with
    | none => (y, 0, 0)
    | some r2 =>
      match scanInt r2 with
      | none => (y, 0, 0)
      | some (m, r3) =>
        match matchHyphen r3 with
        | none => (y, m, 0)
        | some r4 =>
          match scanInt r4 with
          | none => (y, m, 0)
          | some (d, _) => (y, m, d)

/-- The verb `%d` of `Sprintf` on an `int`. -/
def formatInt (x : Int) : GoString :=
  if x < 0 then '-' :: Nat.toDigits 10 x.natAbs else Nat.toDigits 10 x.toNat

end fmt

/-- Source `formatDisplayDate`. -/
def formatDisplayDate (iso : GoString) : GoString :=
  match fmt.Sscanf3 iso with
  | (y, m, d) =>
    if m < 1 || m > 12 then iso
    else (months.getD (m - 1).toNat "").toList ++ " ".toList ++ fmt.formatInt d
      ++ ", ".toList ++ fmt.formatInt y

/-! ## Reading meta tags -/

/-- Source `listMarker`: start of the Writing list in `index.html`. -/
def listMarker : GoString := "<ul class=\"post-list\">".toList

/-- Source `itemMarker`: the first RSS item in `feed.xml`. -/
def itemMarker : GoString := "<item>".toList

/-- Source `baseURL`. -/
def baseURL : GoString := "https://jordanjoecooper.com".toList

/-- Source `suffixStrip`: stripped from titles in meta. -/
def suffixStrip : GoString := " - Jordan Joe Cooper".toList

/-- Source `extractMeta`: the trimmed `content` of the first matching `<meta>` tag, or the
empty string. -/
def extractMeta (T : unicode.Tables) (html attr value : GoString) : GoString :=
  let m := regexp.FindStringSubmatch (regexp.metaPattern T attr value) html
  if m.length < 2 then []
  else strings.TrimSpace (m.getD 1 [])

/-- Source `extractTitle`: `og:title`, else `twitter:title`, else `<title>`, without the
site suffix. -/
def extractTitle (T : unicode.Tables) (html : GoString) : GoString :=
  let s := extractMeta T html "property".toList "og:title".toList
  let s := if s.isEmpty then extractMeta T html "name".toList "twitter:title".toList else s
  if !s.isEmpty then
    strings.TrimSpace (strings.TrimSuffix (strings.TrimSpace s) suffixStrip)
  else
    let m := regexp.FindStringSubmatch (regexp.titlePattern T) html
    if m.length < 2 then []
    else strings.TrimSpace (strings.TrimSuffix (strings.TrimSpace (m.getD 1 [])) suffixStrip)

/-! ## The homepage and feed synchronizer -/

/-- The three files `updateIndexAndFeed` touches; `none` is a file that cannot be read.
Writing a file that was read is taken to succeed. -/
structure Site where
  post : Option GoString
  index : Option GoString
  feed : Option GoString
deriving DecidableEq

/-- The error returns of `updateIndexAndFeed`, in source order. -/
inductive SyncError where
  | readPost
  | noTitle
  | noDescription
  | noDate
  | rssDate
  | readIndex
  | noList
  | readFeed
  | noItem
deriving DecidableEq, Repr

/-- The message of the errors the program words itself. -/
def SyncError.message : SyncError → Option String
  | .noTitle => some "could not extract title from post"
  | .noDescription => some "could not extract description from post"
  | .noDate => some "could not extract date (article:published_time YYYY-MM-DD)"
  | .noList => some "could not find Writing list in index.html"
  | .noItem => some "could not find <item> in feed.xml"
  | _ => none

/-- The list item `fmt.Sprintf` builds for the homepage. -/
def newLi (displayDate slug titleForHTML : GoString) : GoString :=
  "      <li>\n        <h2 class=\"post-title\">\n          <span class=\"post-date\">".toList
    ++ displayDate ++ "</span>\n          <a href=\"posts/".toList ++ slug ++ ".html\">".toList
    ++ titleForHTML ++ "</a>\n        </h2>\n      </li>\n      ".toList

/-- The item `fmt.Sprintf` builds for the feed. -/
def newItem (titleEscaped url rssDate descEscaped : GoString) : GoString :=
  "    <item>\n      <title>".toList ++ titleEscaped ++ "</title>\n      <link>".toList ++ url
    ++ "</link>\n      <guid>".toList ++ url ++ "</guid>\n      <pubDate>".toList ++ rssDate
    ++ "</pubDate>\n      <description>".toList ++ descEscaped
    ++ "</description>\n    </item>\n    ".toList

/-- The description of a post: `name="description"`, else `property="og:description"`. -/
def extractDescription (T : unicode.Tables) (html : GoString) : GoString :=
  let description := extractMeta T html "name".toList "description".toList
  if description.isEmpty then extractMeta T html "property".toList "og:description".toList
  else description

/-- The raw date of a post: `article:published_time` as `name`, else as `property`. -/
def extractDateRaw (T : unicode.Tables) (html : GoString) : GoString :=
  let dateRaw := extractMeta T html "name".toList "article:published_time".toList
  if dateRaw.isEmpty then extractMeta T html "property".toList "article:published_time".toList
  else dateRaw

/-- Source `updateIndexAndFeed`: the resulting files and the error returned, `none` for
`nil`. What it prints is not modelled. -/
def updateIndexAndFeed (T : unicode.Tables) (postFullPath : GoString) (st : Site) :
    Site × Option SyncError :=
  match st.post with
  | none => (st, some .readPost)
  | some html =>
    let title := extractTitle T html
    let description := extractDescription T html
    let dateRaw := extractDateRaw T html
    if title.isEmpty then (st, some .noTitle)
    else if description.isEmpty then (st, some .noDescription)
    else if dateRaw.isEmpty || !validateDate dateRaw then (st, some .noDate)
    else
      let slug := strings.TrimSuffix (filepath.Base postFullPath) ".html".toList
      let displayDate := formatDisplayDate dateRaw
      match formatRSSDate dateRaw with
      | none => (st, some .rssDate)
      | some rssDate =>
        let url := baseURL ++ "/posts/".toList ++ slug ++ ".html".toList
        let descEscaped := escapeXML description
        let titleEscaped := escapeXML title
        let titleForHTML := strings.ReplaceAll
          (strings.ReplaceAll title "&".toList "&amp;".toList) "<".toList "&lt;".toList
        match st.index with
        | none => (st, some .readIndex)
        | some indexContent =>
          match strings.Index indexContent listMarker with
          | none => (st, some .noList)
          | some idx =>
            let insertAt := idx + listMarker.length
            let indexNew := indexContent.take insertAt ++ "\n".toList
              ++ newLi displayDate slug titleForHTML ++ indexContent.drop insertAt
            let st := { st with index := some indexNew }
            match st.feed with
            | none => (st, some .readFeed)
            | some feedContent =>
              match strings.Index feedContent itemMarker with
              | none => (st, some .noItem)
              | some feedIdx =>
                let feedNew := feedContent.take feedIdx
                  ++ newItem titleEscaped url rssDate descEscaped ++ feedContent.drop feedIdx
                ({ st with feed := some feedNew }, none)

/-! ## The calendar, as the specification words it -/

namespace Calendar

/-- Gregorian leap years: every fourth year, except the centuries not divisible by 400. -/
def leapYear (y : Nat) : Bool :=
  y % 400 == 0 || (y % 4 == 0 && y % 100 != 0)

/-- Length of month `m` (1 is January) in year `y`. -/
def monthLength (y m : Nat) : Nat :=
  match m with
  | 1 => 31
  | 2 => if leapYear y then 29 else 28
  | 3 => 31
  | 4 => 30
  | 5 => 31
  | 6 => 30
  | 7 => 31
  | 8 => 31
  | 9 => 30
  | 10 => 31
  | 11 => 30
  | 12 => 31
  | _ => 0

/-- Number of days of year `y`. -/
def yearLength (y : Nat) : Nat := if leapYear y then 366 else 365

/-- Days from 0000-01-01 to the first day of year `y`. -/
def daysBeforeYear : Nat → Nat
  | 0 => 0
  | y + 1 => daysBeforeYear y + yearLength y

/-- Days of year `y` in its first `m` months. -/
def daysInFirstMonths (y : Nat) : Nat → Nat
  | 0 => 0
  | m + 1 => daysInFirstMonths y m + monthLength y (m + 1)

/-- Days from 0000-01-01 to the given day. -/
def dayNumber (y m d : Nat) : Nat :=
  daysBeforeYear y + daysInFirstMonths y (m - 1) + (d - 1)

/-- Day of the week, 0 for Sunday: day 0000-01-01 was a Saturday, and the days of the week
follow each other in a cycle of seven. -/
def weekday (y m d : Nat) : Nat := (6 + dayNumber y m d) % 7

/-- Three-letter names of the days of the week, Sunday first. -/
def weekdayAbbr : List String := ["Sun", "Mon", "Tue", "Wed", "Thu", "Fri", "Sat"]

/-- Three-letter names of the months. -/
def monthAbbr : List String :=
  ["Jan", "Feb", "Mar", "Apr", "May", "Jun", "Jul", "Aug", "Sep", "Oct", "Nov", "Dec"]

/-- English names of the months. -/
def monthName : List String :=
  ["January", "February", "March", "April", "May", "June", "July", "August", "September",
   "October", "November", "December"]

end Calendar

/-- An ASCII decimal digit. -/
def isDigitChar (c : Char) : Prop := '0'.toNat ≤ c.toNat ∧ c.toNat ≤ '9'.toNat

instance (c : Char) : Decidable (isDigitChar c) := by unfold isDigitChar; infer_instance

/-- The value of a digit character. -/
def digitValue (c : Char) : Nat := c.toNat - '0'.toNat

/-- The number a run of decimal digits denotes. -/
def fieldValue (cs : GoString) : Nat := cs.foldl (fun n c => 10 * n + digitValue c) 0

/-- The year field of `YYYY-MM-DD`. -/
def isoYear (s : GoString) : Nat := fieldValue (s.take 4)

/-- The month field of `YYYY-MM-DD`. -/
def isoMonth (s : GoString) : Nat := fieldValue ((s.drop 5).take 2)

/-- The day field of `YYYY-MM-DD`. -/
def isoDay (s : GoString) : Nat := fieldValue ((s.drop 8).take 2)

/-- The string is `YYYY-MM-DD` for a day that exists: ten characters, hyphens at positions 4
and 7, digits elsewhere, month 01 to 12, day within the length of that month in that year. -/
def DenotesDate (s : GoString) : Prop :=
  s.length = 10 ∧ s[4]? = some '-' ∧ s[7]? = some '-'
    ∧ (∀ i, i < 10 → i ≠ 4 → i ≠ 7 → ∃ c, s[i]? = some c ∧ isDigitChar c)
    ∧ 1 ≤ isoMonth s ∧ isoMonth s ≤ 12
    ∧ 1 ≤ isoDay s ∧ isoDay s ≤ Calendar.monthLength (isoYear s) (isoMonth s)

/-- A number below 100 in two digits. -/
def twoDigits (n : Nat) : GoString := [Char.ofNat (48 + n / 10), Char.ofNat (48 + n % 10)]

/-- A number below 10000 in four digits. -/
def fourDigits (n : Nat) : GoString :=
  [Char.ofNat (48 + n / 1000), Char.ofNat (48 + n / 100 % 10), Char.ofNat (48 + n / 10 % 10),
   Char.ofNat (48 + n % 10)]

/-- The feed date of the specification: weekday, two-digit day, month, year, midnight, UTC. -/
def rssText (y m d : Nat) : GoString :=
  (Calendar.weekdayAbbr.getD (Calendar.weekday y m d) "").toList ++ ", ".toList
    ++ twoDigits d ++ " ".toList ++ (Calendar.monthAbbr.getD (m - 1) "").toList ++ " ".toList
    ++ fourDigits y ++ " 00:00:00 +0000".toList

/-- The display date of the specification: month name, day and year in decimal. -/
def displayText (y m d : Nat) : GoString :=
  (Calendar.monthName.getD (m - 1) "").toList ++ " ".toList ++ (Nat.repr d).toList
    ++ ", ".toList ++ (Nat.repr y).toList

/-! ## Definitions used in the statements and proofs -/

/-- Single-pass substitution of one character, as the specification words it. -/
def escapeChar (c : Char) : GoString :=
  if c = '&' then "&amp;".toList
  else if c = '<' then "&lt;".toList
  else if c = '>' then "&gt;".toList
  else if c = '"' then "&quot;".toList
  else [c]

/-- The loop of `slugify`, one rune at a time. -/
def slugKeep (T : unicode.Tables) (r : Char) : GoString :=
  if unicode.IsLetter T r || unicode.IsNumber T r || r == '-' then [r]
  else if r == ' ' || r == '\t' then ['-']
  else []

/-- Number of hyphens at the start of a string. -/
def leadHyphens : GoString → Nat
  | [] => 0
  | c :: rest => if c = '-' then leadHyphens rest + 1 else 0

/-- Reference collapse of hyphen runs: `prev` tells that the character before was a hyphen. -/
def collapseHyphens : Bool → GoString → GoString
  | _, [] => []
  | prev, c :: rest =>
    if c = '-' then (if prev then collapseHyphens true rest else '-' :: collapseHyphens true rest)
    else c :: collapseHyphens false rest

/-- No two neighbouring characters are both hyphens. -/
def NoHyphenPair (s : GoString) : Prop :=
  List.Chain' (fun a b => ¬ (a = '-' ∧ b = '-')) s

/-- Reference for the `^-|-$` replacement: drop a hyphen that stands first or last. -/
def stripEdge : Bool → GoString → GoString
  | _, [] => []
  | atStart, c :: rest =>
    if c = '-' ∧ (atStart = true ∨ rest = []) then stripEdge false rest
    else c :: stripEdge false rest

/-- The characters `a`-`z` and `0`-`9`. -/
def isLowerAlnum (c : Char) : Bool :=
  ('a'.toNat ≤ c.toNat && c.toNat ≤ 'z'.toNat) || ('0'.toNat ≤ c.toNat && c.toNat ≤ '9'.toNat)

/-- The property claimed of a slug: only `a`-`z`, `0`-`9` and `-`, no hyphen first or last,
no two hyphens in a row. -/
def SlugWellFormed (r : GoString) : Prop :=
  (∀ c ∈ r, c = '-' ∨ isLowerAlnum c = true) ∧ r.head? ≠ some '-' ∧ r.getLast? ≠ some '-'
    ∧ ¬ (['-', '-'] <:+: r)

/-- A byte that is an ASCII digit. -/
def isDigitByte (c : Nat) : Prop := 48 ≤ c ∧ c ≤ 57

instance (c : Nat) : Decidable (isDigitByte c) := by unfold isDigitByte; infer_instance

/-- The number four digit bytes denote. -/
def bytesYear (b0 b1 b2 b3 : Nat) : Nat :=
  1000 * (b0 - 48) + 100 * (b1 - 48) + 10 * (b2 - 48) + (b3 - 48)

/-- The number two digit bytes denote. -/
def bytesTwo (a b : Nat) : Nat := (a - 48) * 10 + (b - 48)

/-- Day of the year, from 0, as `time.Date` counts it. -/
def dayOfYear (y m d : Nat) : Nat :=
  (if time.isLeap y && m ≥ 3 then time.daysBefore.getD (m - 1) 0 + 1
    else time.daysBefore.getD (m - 1) 0) + (d - 1)

/-- The required-field check of `updateIndexAndFeed`: title, description and a date that
`validateDate` accepts can all be extracted. -/
def PassesCheck (T : unicode.Tables) (html : GoString) : Prop :=
  extractTitle T html ≠ [] ∧ extractDescription T html ≠ []
    ∧ extractDateRaw T html ≠ [] ∧ validateDate (extractDateRaw T html) = true

instance (T : unicode.Tables) (html : GoString) : Decidable (PassesCheck T html) := by
  unfold PassesCheck; infer_instance

/-- The slug of a post file: its base name without `.html`. -/
def slugOf (postFullPath : GoString) : GoString :=
  strings.TrimSuffix (filepath.Base postFullPath) ".html".toList

/-- The link text of the new list item, as `updateIndexAndFeed` computes it. -/
def titleForHTML (title : GoString) : GoString :=
  strings.ReplaceAll (strings.ReplaceAll title "&".toList "&amp;".toList) "<".toList "&lt;".toList

/-- The text `updateIndexAndFeed` inserts into the homepage for a post. -/
def listFragment (T : unicode.Tables) (postFullPath html : GoString) : GoString :=
  "\n".toList ++ newLi (formatDisplayDate (extractDateRaw T html)) (slugOf postFullPath)
    (titleForHTML (extractTitle T html))

/-- The text `updateIndexAndFeed` inserts into the feed for a post. -/
def feedFragment (T : unicode.Tables) (postFullPath html : GoString) : GoString :=
  newItem (escapeXML (extractTitle T html))
    (baseURL ++ "/posts/".toList ++ slugOf postFullPath ++ ".html".toList)
    ((formatRSSDate (extractDateRaw T html)).getD []) (escapeXML (extractDescription T html))

/-- What `updateIndexAndFeed` does once the required fields are there. -/
def syncBody (T : unicode.Tables) (postFullPath html : GoString) (st : Site) :
    Site × Option SyncError :=
  match st.index with
  | none => (st, some .readIndex)
  | some ix =>
    match strings.Index ix listMarker with
    | none => (st, some .noList)
    | some idx =>
      match st.feed with
      | none =>
        ({ st with index := some (ix.take (idx + listMarker.length)
            ++ listFragment T postFullPath html ++ ix.drop (idx + listMarker.length)) },
          some .readFeed)
      | some fd =>
        match strings.Index fd itemMarker with
        | none =>
          ({ st with index := some (ix.take (idx + listMarker.length)
              ++ listFragment T postFullPath html ++ ix.drop (idx + listMarker.length)) },
            some .noItem)
        | some j =>
          ({ st with
              index := some (ix.take (idx + listMarker.length)
                ++ listFragment T postFullPath html ++ ix.drop (idx + listMarker.length))
              feed := some (fd.take j ++ feedFragment T postFullPath html ++ fd.drop j) },
            none)

/-- The character substitution `updateIndexAndFeed` applies to the link text. -/
def textEscapeChar (c : Char) : GoString :=
  if c = '&' then "&amp;".toList else if c = '<' then "&lt;".toList else [c]

/-! ## Sample files -/

/-- A post with title, description and date. -/
def samplePost : GoString :=
  ("<head>\n<meta name=\"description\" content=\"Desc\">\n"
    ++ "<meta property=\"og:title\" content=\"My Post - Jordan Joe Cooper\">\n"
    ++ "<meta property=\"article:published_time\" content=\"2026-01-01\">\n</head>").toList

/-- A post with title and description and no `article:published_time` tag. -/
def undatedPost : GoString :=
  ("<head>\n<meta name=\"description\" content=\"Desc\">\n"
    ++ "<meta property=\"og:title\" content=\"My Post - Jordan Joe Cooper\">\n</head>").toList

/-- A post whose title holds a `>`. -/
def arrowPost : GoString :=
  ("<head>\n<meta name=\"description\" content=\"Desc\">\n"
    ++ "<meta property=\"og:title\" content=\"a>b\">\n"
    ++ "<meta property=\"article:published_time\" content=\"2026-01-01\">\n</head>").toList

/-- A homepage with the list marker. -/
def sampleIndex : GoString :=
  "<h1>Writing</h1>\n<ul class=\"post-list\">\n<li>old</li>\n</ul>".toList

/-- A feed with one item. -/
def sampleFeed : GoString := "<rss>\n    <item><title>old</title></item>\n</rss>".toList

/-- The path of the sample post. -/
def samplePath : GoString := "/site/posts/my-post.html".toList

/-- The three sample files together. -/
def sampleSite : Site :=
  { post := some samplePost, index := some sampleIndex, feed := some sampleFeed }

/-! ## `normalizeSlug` -/

/-- The string `normalizeSlug` builds in its loop, before the two regular expressions. -/
def normalizeBuilder (T : unicode.Tables) (s : GoString) : GoString :=
  (strings.TrimSuffix s ".html".toList).foldl (fun (b : GoString) r =>
    if ('a'.toNat ≤ r.toNat && r.toNat ≤ 'z'.toNat) || ('0'.toNat ≤ r.toNat && r.toNat ≤ '9'.toNat)
        || r == '-' then b ++ [r]
    else if ('A'.toNat ≤ r.toNat && r.toNat ≤ 'Z'.toNat) || unicode.IsLetter T r then
      b ++ [unicode.ToLower T r]
    else if r == ' ' || r == '_' then b ++ ['-']
    else b) []

/-- Source `normalizeSlug`. -/
def normalizeSlug (T : unicode.Tables) (s defaultSlug : GoString) : GoString :=
  let out := regexp.ReplaceAllString regexp.hyphenRun
    (regexp.ReplaceAllString regexp.edgeHyphen (normalizeBuilder T s) "".toList) "-".toList
  if out.isEmpty then defaultSlug else out

/-- The loop of `normalizeSlug`, one rune at a time. -/
def normalizeKeep (T : unicode.Tables) (r : Char) : GoString :=
  if ('a'.toNat ≤ r.toNat && r.toNat ≤ 'z'.toNat) || ('0'.toNat ≤ r.toNat && r.toNat ≤ '9'.toNat)
      || r == '-' then [r]
  else if ('A'.toNat ≤ r.toNat && r.toNat ≤ 'Z'.toNat) || unicode.IsLetter T r then
    [unicode.ToLower T r]
  else if r == ' ' || r == '_' then ['-']
  else []

/-- What the program needs of Go's case tables above Latin-1: the lower-case form of a
letter is a letter, and the lower-case form of a character that is neither a letter nor a
number is neither of them, nor a hyphen, a space or a tab. -/
def LowerKeepsClass (T : unicode.Tables) : Prop :=
  ∀ c : Char, 0xFF < c.toNat →
    (unicode.IsLetter T c = true → unicode.IsLetter T (unicode.ToLower T c) = true)
    ∧ (unicode.IsLetter T c = false → unicode.IsNumber T c = false →
        unicode.IsLetter T (unicode.ToLower T c) = false
        ∧ unicode.IsNumber T (unicode.ToLower T c) = false
        ∧ unicode.ToLower T c ≠ '-' ∧ unicode.ToLower T c ≠ ' ' ∧ unicode.ToLower T c ≠ '\t')

/-- A character that the loops of `slugify` and `normalizeSlug` treat alike: not `_`, not a
tab, and not a number other than `0`-`9`. -/
def PlainSlugChar (T : unicode.Tables) (c : Char) : Prop :=
  c ≠ '_' ∧ c ≠ '\t' ∧ (unicode.IsNumber T c = true → isDigitChar c)

instance (T : unicode.Tables) (c : Char) : Decidable (PlainSlugChar T c) := by
  unfold PlainSlugChar; infer_instance

/-! # Theorems -/

/-! ## Escaping -/

theorem replaceAll_single (s : GoString) (a : Char) (new : GoString) :
    strings.ReplaceAll s [a] new = s.flatMap (fun c => if c = a then new else [c]) := by
  simp only [strings.ReplaceAll, List.cons_ne_nil, if_false]
  induction s with
  | nil => rfl
  | cons c rest ih =>
    by_cases h : c = a
    · subst h
      simp [strings.replaceScan, List.isPrefixOf, ih]
    · have h2 : ¬ a = c := fun e => h e.symm
      simp [strings.replaceScan, List.isPrefixOf, h, h2, ih]

theorem escapeHTML_eq_flatMap (s : GoString) : escapeHTML s = s.flatMap escapeChar := by
  simp only [escapeHTML]
  have e1 : "&".toList = ['&'] := rfl
  have e2 : "<".toList = ['<'] := rfl
  have e3 : ">".toList = ['>'] := rfl
  have e4 : "\"".toList = ['"'] := rfl
  rw [e1, e2, e3, e4]
  simp only [replaceAll_single]
  induction s with
  | nil => rfl
  | cons c rest ih =>
    simp only [List.flatMap_cons, List.flatMap_append, ih]
    congr 1
    by_cases h1 : c = '&'
    · subst h1; decide
    · by_cases h2 : c = '<'
      · subst h2; decide
      · by_cases h3 : c = '>'
        · subst h3; decide
        · by_cases h4 : c = '"'
          · subst h4; decide
          · simp [escapeChar, h1, h2, h3, h4]

/-! ## `slugify` -/

theorem replaceScan_mem (re : regexp.Regexp) (repl : GoString) (s : GoString) :
    ∀ (pos skip : Nat) (c : Char), c ∈ regexp.replaceScan re repl pos skip s → c ∈ s ∨ c ∈ repl := by
  induction s with
  | nil => intro pos skip c h; simp [regexp.replaceScan] at h
  | cons a rest ih =>
    intro pos skip c h
    cases skip with
    | succ k =>
      simp only [regexp.replaceScan] at h
      rcases ih _ _ _ h with h1 | h1
      · exact Or.inl (List.mem_cons_of_mem _ h1)
      · exact Or.inr h1
    | zero =>
      simp only [regexp.replaceScan] at h
      split at h
      · split at h
        · rcases List.mem_append.mp h with h1 | h1
          · exact Or.inr h1
          · rcases ih _ _ _ h1 with h2 | h2
            · exact Or.inl (List.mem_cons_of_mem _ h2)
            · exact Or.inr h2
        · rcases List.mem_cons.mp h with h1 | h1
          · exact Or.inl (h1 ▸ List.mem_cons_self _ _)
          · rcases ih _ _ _ h1 with h2 | h2
            · exact Or.inl (List.mem_cons_of_mem _ h2)
            · exact Or.inr h2
      · rcases List.mem_cons.mp h with h1 | h1
        · exact Or.inl (h1 ▸ List.mem_cons_self _ _)
        · rcases ih _ _ _ h1 with h2 | h2
          · exact Or.inl (List.mem_cons_of_mem _ h2)
          · exact Or.inr h2

theorem ReplaceAllString_mem (re : regexp.Regexp) (src repl : GoString) (c : Char)
    (h : c ∈ regexp.ReplaceAllString re src repl) : c ∈ src ∨ c ∈ repl :=
  replaceScan_mem re repl src 0 0 c h

theorem slugLoop_eq (T : unicode.Tables) (l : GoString) : ∀ acc : GoString,
    l.foldl (fun (b : GoString) r =>
      if unicode.IsLetter T r || unicode.IsNumber T r || r == '-' then b ++ [r]
      else if r == ' ' || r == '\t' then b ++ ['-']
      else b) acc = acc ++ l.flatMap (slugKeep T) := by
  induction l with
  | nil => intro acc; simp
  | cons r rest ih =>
    intro acc
    simp only [List.foldl_cons, List.flatMap_cons, ih, slugKeep]
    split
    · simp
    · split <;> simp

theorem slugBuilder_eq (T : unicode.Tables) (s : GoString) :
    slugBuilder T s = (strings.ToLower T (strings.TrimSpace s)).flatMap (slugKeep T) := by
  unfold slugBuilder
  rw [slugLoop_eq]; simp

theorem slugKeep_class (T : unicode.Tables) (r c : Char) (h : c ∈ slugKeep T r) :
    c = '-' ∨ ((unicode.IsLetter T c = true ∨ unicode.IsNumber T c = true) ∧ c = r) := by
  unfold slugKeep at h
  split at h
  · rename_i hk
    simp only [List.mem_singleton] at h
    subst h
    simp only [Bool.or_eq_true, beq_iff_eq] at hk
    rcases hk with (hk | hk) | hk
    · exact Or.inr ⟨Or.inl hk, rfl⟩
    · exact Or.inr ⟨Or.inr hk, rfl⟩
    · exact Or.inl hk
  · split at h
    · simp only [List.mem_singleton] at h; exact Or.inl h
    · simp at h

theorem slugBuilder_class (T : unicode.Tables) (s : GoString) (c : Char)
    (h : c ∈ slugBuilder T s) :
    c = '-' ∨ ((unicode.IsLetter T c = true ∨ unicode.IsNumber T c = true)
      ∧ c ∈ strings.ToLower T (strings.TrimSpace s)) := by
  rw [slugBuilder_eq] at h
  obtain ⟨r, hr, hc⟩ := List.mem_flatMap.mp h
  rcases slugKeep_class T r c hc with h1 | ⟨h1, h2⟩
  · exact Or.inl h1
  · exact Or.inr ⟨h1, h2 ▸ hr⟩

theorem slugify_class (T : unicode.Tables) (s : GoString) (c : Char)
    (h : c ∈ slugify T s) :
    c = '-' ∨ ((unicode.IsLetter T c = true ∨ unicode.IsNumber T c = true)
      ∧ c ∈ strings.ToLower T (strings.TrimSpace s)) := by
  simp only [slugify] at h
  rcases ReplaceAllString_mem _ _ _ _ h with h1 | h1
  · rcases ReplaceAllString_mem _ _ _ _ h1 with h2 | h2
    · exact slugBuilder_class T s c h2
    · simp at h2
  · left; simpa using h1

theorem greedy_hyphen_total (cs ce : Nat) (s : GoString) : ∀ pos : Nat,
    regexp.greedy regexp.isHyphen (fun pos2 _ => some ⟨pos2, cs, ce⟩) pos s
      = some ⟨pos + leadHyphens s, cs, ce⟩ := by
  induction s with
  | nil => intro pos; simp [regexp.greedy, leadHyphens]
  | cons c rest ih =>
    intro pos
    by_cases h : c = '-'
    · subst h
      simp only [regexp.greedy, regexp.isHyphen, beq_self_eq_true, if_true, ih, leadHyphens]
      simp only [Nat.add_assoc, Nat.add_comm 1]
    · simp [regexp.greedy, regexp.isHyphen, h, leadHyphens]

theorem matchAlt_hyphenRun (pos : Nat) (c : Char) (rest : GoString) :
    regexp.matchAlt regexp.hyphenRun pos (c :: rest)
      = if c = '-' then some ⟨pos + 1 + leadHyphens rest, 0, 0⟩ else none := by
  by_cases h : c = '-'
  · subst h
    simp [regexp.matchAlt, regexp.hyphenRun, regexp.matchHere, regexp.isHyphen,
      greedy_hyphen_total]
  · simp [regexp.matchAlt, regexp.hyphenRun, regexp.matchHere, regexp.isHyphen, h]

theorem replaceScan_hyphenRun (s : GoString) :
    (∀ pos, regexp.replaceScan regexp.hyphenRun ['-'] pos 0 s = collapseHyphens false s) ∧
    (∀ pos, regexp.replaceScan regexp.hyphenRun ['-'] pos (leadHyphens s) s
      = collapseHyphens true s) := by
  induction s with
  | nil => simp [regexp.replaceScan, collapseHyphens]
  | cons c rest ih =>
    have part1 : ∀ pos, regexp.replaceScan regexp.hyphenRun ['-'] pos 0 (c :: rest)
        = collapseHyphens false (c :: rest) := by
      intro pos
      by_cases h : c = '-'
      · subst h
        have e : pos + 1 + leadHyphens rest - pos - 1 = leadHyphens rest := by omega
        have l : pos < pos + 1 + leadHyphens rest := by omega
        simp [regexp.replaceScan, matchAlt_hyphenRun, collapseHyphens, e, l, ih.2]
      · simp [regexp.replaceScan, matchAlt_hyphenRun, collapseHyphens, h, ih.1]
    refine ⟨part1, ?_⟩
    intro pos
    by_cases h : c = '-'
    · subst h
      simp [regexp.replaceScan, leadHyphens, collapseHyphens, ih.2]
    · have e : leadHyphens (c :: rest) = 0 := by simp [leadHyphens, h]
      rw [e, part1]
      simp [collapseHyphens, h]

theorem collapseHyphens_chain (s : GoString) : ∀ prev : Bool,
    NoHyphenPair (collapseHyphens prev s) ∧
    (prev = true → (collapseHyphens prev s).head? ≠ some '-') := by
  induction s with
  | nil => intro prev; simp [collapseHyphens, NoHyphenPair]
  | cons c rest ih =>
    intro prev
    by_cases h : c = '-'
    · subst h
      cases prev with
      | true =>
        simp only [collapseHyphens, if_true]
        exact ⟨(ih true).1, fun _ => (ih true).2 rfl⟩
      | false =>
        simp only [collapseHyphens, if_true, Bool.false_eq_true, if_false]
        refine ⟨?_, by simp⟩
        unfold NoHyphenPair
        rw [List.chain'_cons']
        refine ⟨?_, (ih true).1⟩
        intro y hy
        intro hc
        exact (ih true).2 rfl (hc.2 ▸ hy)
    · simp only [collapseHyphens, h, if_false]
      refine ⟨?_, ?_⟩
      · unfold NoHyphenPair
        rw [List.chain'_cons']
        refine ⟨?_, (ih false).1⟩
        intro y _ hc
        exact h hc.1
      · intro _
        simp [h]

theorem slugify_noHyphenPair (T : unicode.Tables) (s : GoString) :
    ¬ (['-', '-'] <:+: slugify T s) := by
  intro hinf
  have e : slugify T s = collapseHyphens false
      (regexp.ReplaceAllString regexp.edgeHyphen (slugBuilder T s) []) := by
    simp only [slugify, regexp.ReplaceAllString]
    exact (replaceScan_hyphenRun _).1 0
  rw [e] at hinf
  have hc := (collapseHyphens_chain
    (regexp.ReplaceAllString regexp.edgeHyphen (slugBuilder T s) []) false).1
  have h2 := List.Chain'.infix hc hinf
  simp at h2

theorem matchAlt_edgeHyphen (pos : Nat) (c : Char) (rest : GoString) :
    regexp.matchAlt regexp.edgeHyphen pos (c :: rest)
      = if c = '-' ∧ (pos = 0 ∨ rest = []) then some ⟨pos + 1, 0, 0⟩ else none := by
  by_cases h : c = '-'
  · subst h
    by_cases hp : pos = 0
    · subst hp
      simp [regexp.matchAlt, regexp.edgeHyphen, regexp.matchHere, regexp.isHyphen]
    · cases rest with
      | nil => simp [regexp.matchAlt, regexp.edgeHyphen, regexp.matchHere, regexp.isHyphen, hp]
      | cons d more =>
        simp [regexp.matchAlt, regexp.edgeHyphen, regexp.matchHere, regexp.isHyphen, hp]
  · simp [regexp.matchAlt, regexp.edgeHyphen, regexp.matchHere, regexp.isHyphen, h]

theorem replaceScan_edgeHyphen (s : GoString) : ∀ pos : Nat,
    regexp.replaceScan regexp.edgeHyphen [] pos 0 s = stripEdge (pos == 0) s := by
  induction s with
  | nil => intro pos; simp [regexp.replaceScan, stripEdge]
  | cons c rest ih =>
    intro pos
    simp only [regexp.replaceScan, matchAlt_edgeHyphen, stripEdge]
    by_cases h : c = '-' ∧ (pos = 0 ∨ rest = [])
    · have h2 : c = '-' ∧ ((pos == 0) = true ∨ rest = []) := by simpa using h
      simp only [h, h2, if_true]
      have l : pos < pos + 1 := by omega
      have e : pos + 1 - pos - 1 = 0 := by omega
      simp [e, ih]
    · have h2 : ¬ (c = '-' ∧ ((pos == 0) = true ∨ rest = [])) := by simpa using h
      simp only [h, h2, if_false]
      simp [ih]

theorem getLast?_cons_eq (a x : Char) (l : GoString) (h : (a :: l).getLast? = some x) :
    (l = [] ∧ a = x) ∨ l.getLast? = some x := by
  cases l with
  | nil => left; simpa using h
  | cons b m => right; simpa [List.getLast?_cons_cons] using h

theorem stripEdge_false_nil (r : GoString) (h : stripEdge false r = []) : r = [] ∨ r = ['-'] := by
  cases r with
  | nil => exact Or.inl rfl
  | cons c rest =>
    right
    simp only [stripEdge, Bool.false_eq_true, false_or] at h
    by_cases hc : c = '-' ∧ rest = []
    · rw [hc.1, hc.2]
    · simp [hc] at h

theorem stripEdge_head (s : GoString) (h : (stripEdge true s).head? = some '-') :
    ['-', '-'] <+: s := by
  cases s with
  | nil => simp [stripEdge] at h
  | cons c rest =>
    by_cases hc : c = '-'
    · subst hc
      simp only [stripEdge, true_or, and_self, if_true] at h
      cases rest with
      | nil => simp [stripEdge] at h
      | cons d more =>
        by_cases hd : d = '-' ∧ more = []
        · simp [stripEdge, hd] at h
        · simp only [stripEdge, Bool.false_eq_true, false_or, hd, if_false, List.head?_cons,
            Option.some.injEq] at h
          subst h
          exact ⟨more, rfl⟩
    · simp [stripEdge, hc] at h

theorem stripEdge_last (s : GoString) : ∀ atStart : Bool,
    (stripEdge atStart s).getLast? = some '-' → ['-', '-'] <:+ s := by
  induction s with
  | nil => intro a h; simp [stripEdge] at h
  | cons c rest ih =>
    intro a h
    by_cases hc : c = '-' ∧ (a = true ∨ rest = [])
    · simp only [stripEdge, hc, and_self, if_true] at h
      obtain ⟨t, ht⟩ := ih false h
      exact ⟨c :: t, by simp [ht]⟩
    · simp only [stripEdge, hc, if_false] at h
      rcases getLast?_cons_eq _ _ _ h with ⟨h1, h2⟩ | h1
      · rcases stripEdge_false_nil rest h1 with h3 | h3
        · exact absurd ⟨h2, Or.inr h3⟩ hc
        · subst h3; subst h2; exact ⟨[], rfl⟩
      · obtain ⟨t, ht⟩ := ih false h1
        exact ⟨c :: t, by simp [ht]⟩

theorem collapseHyphens_head (s : GoString)
    (h : (collapseHyphens false s).head? = some '-') : s.head? = some '-' := by
  cases s with
  | nil => simp [collapseHyphens] at h
  | cons c rest =>
    by_cases hc : c = '-'
    · simp [hc]
    · simp [collapseHyphens, hc] at h

theorem collapseHyphens_nil (s : GoString) : ∀ prev : Bool,
    collapseHyphens prev s = [] → ∀ x ∈ s, x = '-' := by
  induction s with
  | nil => intro _ _ x hx; simp at hx
  | cons c rest ih =>
    intro prev h x hx
    by_cases hc : c = '-'
    · subst hc
      cases prev with
      | true =>
        simp only [collapseHyphens, if_true] at h
        rcases List.mem_cons.mp hx with h1 | h1
        · exact h1
        · exact ih true h x h1
      | false => simp [collapseHyphens] at h
    · simp [collapseHyphens, hc] at h

theorem getLast?_of_all (s : GoString) (x : Char) (hne : s ≠ []) (h : ∀ y ∈ s, y = x) :
    s.getLast? = some x := by
  rw [List.getLast?_eq_getLast _ hne]
  exact congrArg some (h _ (List.getLast_mem hne))

theorem getLast?_cons_of (a x : Char) (l : GoString) (h : l.getLast? = some x) :
    (a :: l).getLast? = some x := by
  cases l with
  | nil => simp at h
  | cons b m => simpa [List.getLast?_cons_cons] using h

theorem collapseHyphens_last (s : GoString) : ∀ prev : Bool,
    (collapseHyphens prev s).getLast? = some '-' → s.getLast? = some '-' := by
  induction s with
  | nil => intro prev h; simp [collapseHyphens] at h
  | cons c rest ih =>
    intro prev h
    by_cases hc : c = '-'
    · subst hc
      cases prev with
      | true =>
        simp only [collapseHyphens, if_true] at h
        exact getLast?_cons_of _ _ _ (ih true h)
      | false =>
        simp only [collapseHyphens, if_true, Bool.false_eq_true, if_false] at h
        rcases getLast?_cons_eq _ _ _ h with ⟨h1, _⟩ | h1
        · have hall := collapseHyphens_nil rest true h1
          exact getLast?_of_all _ _ (by simp) (by
            intro y hy
            rcases List.mem_cons.mp hy with h2 | h2
            · exact h2
            · exact hall y h2)
        · exact getLast?_cons_of _ _ _ (ih true h1)
    · simp only [collapseHyphens, hc, if_false] at h
      rcases getLast?_cons_eq _ _ _ h with ⟨_, h2⟩ | h1
      · exact absurd h2 hc
      · exact getLast?_cons_of _ _ _ (ih false h1)

theorem slugify_eq_reference (T : unicode.Tables) (s : GoString) :
    slugify T s = collapseHyphens false (stripEdge true (slugBuilder T s)) := by
  simp only [slugify, regexp.ReplaceAllString]
  have e1 : "".toList = ([] : GoString) := rfl
  have e2 : "-".toList = ['-'] := rfl
  rw [e1, e2, (replaceScan_hyphenRun _).1 0, replaceScan_edgeHyphen]
  rfl

theorem slugify_head (T : unicode.Tables) (s : GoString)
    (h : ¬ (['-', '-'] <+: slugBuilder T s)) : (slugify T s).head? ≠ some '-' := by
  intro hh
  rw [slugify_eq_reference] at hh
  exact h (stripEdge_head _ (collapseHyphens_head _ hh))

theorem slugify_last (T : unicode.Tables) (s : GoString)
    (h : ¬ (['-', '-'] <:+ slugBuilder T s)) : (slugify T s).getLast? ≠ some '-' := by
  intro hh
  rw [slugify_eq_reference] at hh
  exact h (stripEdge_last _ true (collapseHyphens_last _ false hh))

theorem toNat_ofNat_small (n : Nat) (h : n < 0xD800) : (Char.ofNat n).toNat = n := by
  have hv : n.isValidChar := Or.inl h
  simp [Char.ofNat, hv, Char.ofNatAux, Char.toNat, UInt32.toNat]

theorem char_ext_toNat (a b : Char) (h : a.toNat = b.toNat) : a = b := by
  rw [← Char.ofNat_toNat a, ← Char.ofNat_toNat b, h]

theorem TrimSpace_subset (s : GoString) (c : Char) (h : c ∈ strings.TrimSpace s) : c ∈ s := by
  unfold strings.TrimSpace at h
  rw [List.mem_reverse] at h
  have h1 := (List.dropWhile_suffix unicode.IsSpace).subset h
  rw [List.mem_reverse] at h1
  exact (List.dropWhile_suffix unicode.IsSpace).subset h1

theorem ascii_lower_class (T : unicode.Tables) (x : Char) (hx : x.toNat < 128)
    (h : unicode.IsLetter T (unicode.ToLower T x) = true
      ∨ unicode.IsNumber T (unicode.ToLower T x) = true) :
    isLowerAlnum (unicode.ToLower T x) = true := by
  have a1 : 'a'.toNat = 97 := rfl
  have a2 : 'z'.toNat = 122 := rfl
  have a3 : '0'.toNat = 48 := rfl
  have a4 : '9'.toNat = 57 := rfl
  have hle : x.toNat ≤ 0x7F := by omega
  by_cases hu : 0x41 ≤ x.toNat ∧ x.toNat ≤ 0x5A
  · have e : unicode.ToLower T x = Char.ofNat (x.toNat + 32) := by
      simp [unicode.ToLower, hle, hu]
    have e2 : (unicode.ToLower T x).toNat = x.toNat + 32 := by
      rw [e]; exact toNat_ofNat_small _ (by omega)
    simp only [isLowerAlnum, e2, a1, a2, a3, a4, Bool.or_eq_true, Bool.and_eq_true,
      decide_eq_true_eq]
    omega
  · have e : unicode.ToLower T x = x := by
      simp only [unicode.ToLower, hle, if_true]
      simp only [Bool.and_eq_true, decide_eq_true_eq, hu, if_false]
    rw [e] at h ⊢
    have hff : x.toNat ≤ 0xFF := by omega
    simp only [unicode.IsLetter, unicode.IsNumber, hff, if_true, Bool.or_eq_true,
      Bool.and_eq_true, decide_eq_true_eq, beq_iff_eq] at h
    simp only [isLowerAlnum, a1, a2, a3, a4, Bool.or_eq_true, Bool.and_eq_true,
      decide_eq_true_eq]
    omega

theorem slugify_ascii (T : unicode.Tables) (s : GoString) (hs : ∀ x ∈ s, x.toNat < 128)
    (c : Char) (h : c ∈ slugify T s) : c = '-' ∨ isLowerAlnum c = true := by
  rcases slugify_class T s c h with h1 | ⟨h1, h2⟩
  · exact Or.inl h1
  · right
    simp only [strings.ToLower, List.mem_map] at h2
    obtain ⟨x, hx, rfl⟩ := h2
    exact ascii_lower_class T x (hs x (TrimSpace_subset s x hx)) h1

theorem ToLower_idem_latin1 (T : unicode.Tables) (n : Nat) (hn : n ≤ 255) :
    unicode.ToLower T (unicode.ToLower T (Char.ofNat n)) = unicode.ToLower T (Char.ofNat n) := by
  interval_cases n <;> rfl

theorem slugify_lower_image (T : unicode.Tables) (s : GoString) (c : Char)
    (h : c ∈ slugify T s) :
    c = '-' ∨ ((unicode.IsLetter T c = true ∨ unicode.IsNumber T c = true)
      ∧ ∃ x ∈ s, c = unicode.ToLower T x) := by
  rcases slugify_class T s c h with h1 | ⟨h1, h2⟩
  · exact Or.inl h1
  · simp only [strings.ToLower, List.mem_map] at h2
    obtain ⟨x, hx, e⟩ := h2
    exact Or.inr ⟨h1, x, TrimSpace_subset s x hx, e.symm⟩

theorem slugify_lower_fixed (T : unicode.Tables) (s : GoString)
    (hs : ∀ x ∈ s, x.toNat ≤ 0xFF) (c : Char) (h : c ∈ slugify T s) :
    unicode.ToLower T c = c := by
  rcases slugify_lower_image T s c h with h1 | ⟨-, x, hx, e⟩
  · rw [h1]; rfl
  · have e2 := Char.ofNat_toNat x
    have := ToLower_idem_latin1 T x.toNat (hs x hx)
    rw [e2] at this
    rw [e]; exact this

/-- The comment above the last line of `slugify` says that leading and trailing hyphens are
trimmed. The pattern `^-|-$` is applied once, before the runs are collapsed, so one hyphen
stays where the built string starts or ends with two. -/
theorem slugify_edge_hyphen_kept :
    slugify unicode.latin1 "--a".toList = "-a".toList
    ∧ slugify unicode.latin1 "- notes".toList = "-notes".toList
    ∧ slugify unicode.latin1 "a -".toList = "a-".toList := by
  decide

/-! ## Lemmas on `time.Parse` -/

theorem leadingInt_four (a b c d : Nat) :
    time.atoi [a, b, c, d] =
      if isDigitByte a ∧ isDigitByte b ∧ isDigitByte c ∧ isDigitByte d then
        some (1000 * (a - 48) + 100 * (b - 48) + 10 * (c - 48) + (d - 48))
      else none := by
  unfold isDigitByte
  by_cases ha : 48 ≤ a ∧ a ≤ 57
  · by_cases hb : 48 ≤ b ∧ b ≤ 57
    · by_cases hc : 48 ≤ c ∧ c ≤ 57
      · by_cases hd : 48 ≤ d ∧ d ≤ 57
        · have h1 : ¬ (a < 48 ∨ 57 < a) := by omega
          have h2 : ¬ (b < 48 ∨ 57 < b) := by omega
          have h3 : ¬ (c < 48 ∨ 57 < c) := by omega
          have h4 : ¬ (d < 48 ∨ 57 < d) := by omega
          have g1 : ¬ (2 ^ 63 / 10 < 0) := by omega
          have g2 : ¬ (2 ^ 63 < 0 * 10 + (a - 48)) := by omega
          have g3 : ¬ (2 ^ 63 / 10 < 0 * 10 + (a - 48)) := by omega
          have g4 : ¬ (2 ^ 63 < (0 * 10 + (a - 48)) * 10 + (b - 48)) := by omega
          have g5 : ¬ (2 ^ 63 / 10 < (0 * 10 + (a - 48)) * 10 + (b - 48)) := by omega
          have g6 : ¬ (2 ^ 63 < ((0 * 10 + (a - 48)) * 10 + (b - 48)) * 10 + (c - 48)) := by omega
          have g7 : ¬ (2 ^ 63 / 10 < ((0 * 10 + (a - 48)) * 10 + (b - 48)) * 10 + (c - 48)) := by
            omega
          have g8 : ¬ (2 ^ 63 <
              (((0 * 10 + (a - 48)) * 10 + (b - 48)) * 10 + (c - 48)) * 10 + (d - 48)) := by omega
          simp only [time.atoi, time.leadingInt, Bool.or_eq_true, decide_eq_true_eq, gt_iff_lt,
            h1, h2, h3, h4, g1, g2, g3, g4, g5, g6, g7, g8, if_false, ha, hb, hc, hd, and_self,
            if_true]
          congr 1
          omega
        · have h1 : ¬ (a < 48 ∨ 57 < a) := by omega
          have h2 : ¬ (b < 48 ∨ 57 < b) := by omega
          have h3 : ¬ (c < 48 ∨ 57 < c) := by omega
          have h4 : (d < 48 ∨ 57 < d) := by omega
          have g1 : ¬ (2 ^ 63 / 10 < 0) := by omega
          have g2 : ¬ (2 ^ 63 < 0 * 10 + (a - 48)) := by omega
          have g3 : ¬ (2 ^ 63 / 10 < 0 * 10 + (a - 48)) := by omega
          have g4 : ¬ (2 ^ 63 < (0 * 10 + (a - 48)) * 10 + (b - 48)) := by omega
          have g5 : ¬ (2 ^ 63 / 10 < (0 * 10 + (a - 48)) * 10 + (b - 48)) := by omega
          have g6 : ¬ (2 ^ 63 < ((0 * 10 + (a - 48)) * 10 + (b - 48)) * 10 + (c - 48)) := by omega
          simp only [time.atoi, time.leadingInt, Bool.or_eq_true, decide_eq_true_eq, gt_iff_lt,
            h1, h2, h3, h4, g1, g2, g3, g4, g5, g6, if_false, ha, hb, hc, hd, and_false,
            if_true]
      · have h1 : ¬ (a < 48 ∨ 57 < a) := by omega
        have h2 : ¬ (b < 48 ∨ 57 < b) := by omega
        have h3 : (c < 48 ∨ 57 < c) := by omega
        have g1 : ¬ (2 ^ 63 / 10 < 0) := by omega
        have g2 : ¬ (2 ^ 63 < 0 * 10 + (a - 48)) := by omega
        have g3 : ¬ (2 ^ 63 / 10 < 0 * 10 + (a - 48)) := by omega
        have g4 : ¬ (2 ^ 63 < (0 * 10 + (a - 48)) * 10 + (b - 48)) := by omega
        simp only [time.atoi, time.leadingInt, Bool.or_eq_true, decide_eq_true_eq, gt_iff_lt,
          h1, h2, h3, g1, g2, g3, g4, if_false, ha, hb, hc, and_false, false_and,
          if_true]
    · have h1 : ¬ (a < 48 ∨ 57 < a) := by omega
      have h2 : (b < 48 ∨ 57 < b) := by omega
      have g1 : ¬ (2 ^ 63 / 10 < 0) := by omega
      have g2 : ¬ (2 ^ 63 < 0 * 10 + (a - 48)) := by omega
      simp only [time.atoi, time.leadingInt, Bool.or_eq_true, decide_eq_true_eq, gt_iff_lt,
        h1, h2, g1, g2, if_false, ha, hb, and_false, false_and, if_true]
  · have h1 : (a < 48 ∨ 57 < a) := by omega
    simp only [time.atoi, time.leadingInt, Bool.or_eq_true, decide_eq_true_eq, gt_iff_lt,
      h1, if_false, ha, false_and, if_true]

theorem getnum_two (a b : Nat) (rest : List Nat) :
    time.getnum (a :: b :: rest) true =
      if isDigitByte a ∧ isDigitByte b then some ((a - 48) * 10 + (b - 48), rest) else none := by
  unfold isDigitByte
  by_cases ha : 48 ≤ a ∧ a ≤ 57
  · by_cases hb : 48 ≤ b ∧ b ≤ 57
    · simp [time.getnum, time.isDigit, ha, hb]
    · simp [time.getnum, time.isDigit, ha, hb]
  · simp [time.getnum, time.isDigit, ha]

theorem getnum_short (a : Nat) : time.getnum [a] true = none := by
  by_cases ha : 48 ≤ a ∧ a ≤ 57
  · simp [time.getnum, time.isDigit, ha]
  · simp [time.getnum, time.isDigit, ha]

theorem getnum_nil : time.getnum [] true = none := by
  simp [time.getnum, time.isDigit]

theorem skipHyphen_cons (c : Nat) (rest : List Nat) :
    time.skipHyphen (c :: rest) = if c = 45 then some rest else none := by
  by_cases h : c = 45
  · subst h; rfl
  · simp only [h, if_false]
    unfold time.skipHyphen
    split
    · rename_i h2; simp at h2; exact absurd h2.1 h
    · rfl

theorem isDigit_zero (c : Nat) (rest : List Nat) :
    time.isDigit (c :: rest) 0 = decide (isDigitByte c) := by
  simp [time.isDigit, isDigitByte]

theorem Parse_ten (b0 b1 b2 b3 b4 b5 b6 b7 b8 b9 : Nat) :
    time.Parse [b0, b1, b2, b3, b4, b5, b6, b7, b8, b9] =
      if isDigitByte b0 ∧ isDigitByte b1 ∧ isDigitByte b2 ∧ isDigitByte b3 ∧ b4 = 45
          ∧ isDigitByte b5 ∧ isDigitByte b6 ∧ b7 = 45 ∧ isDigitByte b8 ∧ isDigitByte b9
          ∧ 1 ≤ bytesTwo b5 b6 ∧ bytesTwo b5 b6 ≤ 12 ∧ 1 ≤ bytesTwo b8 b9
          ∧ bytesTwo b8 b9 ≤ time.daysIn (bytesTwo b5 b6) (bytesYear b0 b1 b2 b3) then
        some (time.Date (bytesYear b0 b1 b2 b3) (bytesTwo b5 b6) (bytesTwo b8 b9))
      else none := by
  simp only [time.Parse, List.take, List.drop, leadingInt_four, skipHyphen_cons, getnum_two,
    isDigit_zero, List.length_cons, List.length_nil, ← bytesYear.eq_1, ← bytesTwo.eq_1]
  by_cases hbig : isDigitByte b0 ∧ isDigitByte b1 ∧ isDigitByte b2 ∧ isDigitByte b3 ∧ b4 = 45
          ∧ isDigitByte b5 ∧ isDigitByte b6 ∧ b7 = 45 ∧ isDigitByte b8 ∧ isDigitByte b9
          ∧ 1 ≤ bytesTwo b5 b6 ∧ bytesTwo b5 b6 ≤ 12 ∧ 1 ≤ bytesTwo b8 b9
          ∧ bytesTwo b8 b9 ≤ time.daysIn (bytesTwo b5 b6) (bytesYear b0 b1 b2 b3)
  · rw [if_pos hbig]
    obtain ⟨h0, h1, h2, h3, h4, h5, h6, h7, h8, h9, hm1, hm2, hd1, hd2⟩ := hbig
    have hm : ¬ (bytesTwo b5 b6 ≤ 0 ∨ 12 < bytesTwo b5 b6) := by omega
    have hd : ¬ (bytesTwo b8 b9 < 1
      ∨ bytesTwo b8 b9 > time.daysIn (bytesTwo b5 b6) (bytesYear b0 b1 b2 b3)) := by omega
    have hg : ¬ ((decide (0 + 1 + 1 + 1 + 1 + 1 + 1 + 1 + 1 + 1 + 1 < 4)
        || !decide (isDigitByte b0)) = true) := by simp [h0]
    rw [if_neg hg]
    simp only [h0, h1, h2, h3, and_self, if_true, h4, getnum_two, h5, h6, ← bytesTwo.eq_1,
      Bool.or_eq_true, decide_eq_true_eq, hm, if_false, skipHyphen_cons, h7, h8, h9,
      List.length_nil, bne_self_eq_false, Bool.false_eq_true, hd]
  · rw [if_neg hbig]
    by_cases hg : (decide (0 + 1 + 1 + 1 + 1 + 1 + 1 + 1 + 1 + 1 + 1 < 4)
        || !decide (isDigitByte b0)) = true
    · rw [if_pos hg]
    rw [if_neg hg]
    by_cases hy : isDigitByte b0 ∧ isDigitByte b1 ∧ isDigitByte b2 ∧ isDigitByte b3
    swap
    · rw [if_neg hy]
    rw [if_pos hy]
    by_cases h4 : b4 = 45
    swap
    · rw [if_neg h4]
    rw [if_pos h4]
    simp only [getnum_two, ← bytesTwo.eq_1]
    by_cases h56 : isDigitByte b5 ∧ isDigitByte b6
    swap
    · rw [if_neg h56]
    rw [if_pos h56]
    by_cases hm : bytesTwo b5 b6 ≤ 0 ∨ 12 < bytesTwo b5 b6
    · simp only [Bool.or_eq_true, decide_eq_true_eq, hm, if_true]
    simp only [Bool.or_eq_true, decide_eq_true_eq, hm, if_false, skipHyphen_cons]
    by_cases h7 : b7 = 45
    swap
    · rw [if_neg h7]
    rw [if_pos h7]
    simp only [getnum_two, ← bytesTwo.eq_1]
    by_cases h89 : isDigitByte b8 ∧ isDigitByte b9
    swap
    · rw [if_neg h89]
    rw [if_pos h89]
    by_cases hd : bytesTwo b8 b9 < 1
      ∨ bytesTwo b8 b9 > time.daysIn (bytesTwo b5 b6) (bytesYear b0 b1 b2 b3)
    · simp only [List.length_nil, bne_self_eq_false, Bool.false_eq_true, if_false,
        Bool.or_eq_true, decide_eq_true_eq, hd, if_true]
    exfalso
    apply hbig
    refine ⟨hy.1, hy.2.1, hy.2.2.1, hy.2.2.2, h4, h56.1, h56.2, h7, h89.1, h89.2, ?_, ?_, ?_, ?_⟩
      <;> omega

theorem getnum_some (v : List Nat) (n : Nat) (r : List Nat)
    (h : time.getnum v true = some (n, r)) : ∃ a b, v = a :: b :: r := by
  rcases v with _ | ⟨a, _ | ⟨b, rest⟩⟩
  · rw [getnum_nil] at h; cases h
  · rw [getnum_short] at h; cases h
  · rw [getnum_two] at h
    split at h
    · simp only [Option.some.injEq, Prod.mk.injEq] at h
      exact ⟨a, b, by rw [h.2]⟩
    · cases h

theorem skipHyphen_some (v r : List Nat) (h : time.skipHyphen v = some r) : v = 45 :: r := by
  cases v with
  | nil => simp [time.skipHyphen] at h
  | cons c rest =>
    rw [skipHyphen_cons] at h
    split at h
    · rename_i hc
      simp only [Option.some.injEq] at h
      rw [hc, h]
    · cases h

theorem Parse_some_length (b : List Nat) (t : time.Time) (h : time.Parse b = some t) :
    b.length = 10 := by
  unfold time.Parse at h
  split at h
  · cases h
  rename_i hg
  split at h
  · cases h
  split at h
  · cases h
  rename_i v1 hv1
  split at h
  · cases h
  rename_i month v2 hv2
  split at h
  · cases h
  split at h
  · cases h
  rename_i v3 hv3
  split at h
  · cases h
  rename_i day v4 hv4
  split at h
  · cases h
  rename_i hlen
  have e1 := skipHyphen_some _ _ hv1
  obtain ⟨a, c, e2⟩ := getnum_some _ _ _ hv2
  have e3 := skipHyphen_some _ _ hv3
  obtain ⟨a2, c2, e4⟩ := getnum_some _ _ _ hv4
  have e5 : v4 = [] := by
    cases v4 with
    | nil => rfl
    | cons x xs => simp at hlen
  have hl : (b.drop 4).length = 6 := by
    rw [e1, e2, e3, e4, e5]; rfl
  simp only [List.length_drop] at hl
  omega

theorem list_length_ten (b : List Nat) (h : b.length = 10) :
    ∃ b0 b1 b2 b3 b4 b5 b6 b7 b8 b9, b = [b0, b1, b2, b3, b4, b5, b6, b7, b8, b9] := by
  rcases b with _ | ⟨b0, _ | ⟨b1, _ | ⟨b2, _ | ⟨b3, _ | ⟨b4, _ | ⟨b5, _ | ⟨b6, _ | ⟨b7, _ |
    ⟨b8, _ | ⟨b9, _ | ⟨b10, rest⟩⟩⟩⟩⟩⟩⟩⟩⟩⟩⟩ <;> simp at h
  exact ⟨b0, b1, b2, b3, b4, b5, b6, b7, b8, b9, rfl⟩

/-! ## Bytes of ASCII text -/

theorem utf8Bytes_ascii (c : Char) (h : c.toNat < 128) : utf8Bytes c = [c.toNat] := by
  simp [utf8Bytes, h]

theorem utf8Bytes_head (c : Char) (h : ¬ c.toNat < 128) :
    ∃ x rest, utf8Bytes c = x :: rest ∧ 128 ≤ x := by
  unfold utf8Bytes
  simp only [h, if_false]
  split
  · exact ⟨_, _, rfl, by omega⟩
  · split
    · exact ⟨_, _, rfl, by omega⟩
    · exact ⟨_, _, rfl, by omega⟩

theorem goBytes_ascii (s : GoString) (h : ∀ c ∈ s, c.toNat < 128) :
    goBytes s = s.map Char.toNat := by
  induction s with
  | nil => rfl
  | cons c rest ih =>
    have hc := h c (List.mem_cons_self _ _)
    have hr := ih (fun x hx => h x (List.mem_cons_of_mem _ hx))
    simp only [goBytes, List.flatMap_cons, List.map_cons] at hr ⊢
    rw [utf8Bytes_ascii c hc, hr]
    rfl

theorem ascii_of_goBytes (s : GoString) (h : ∀ x ∈ goBytes s, x < 128) :
    ∀ c ∈ s, c.toNat < 128 := by
  induction s with
  | nil => intro c hc; cases hc
  | cons a rest ih =>
    have e : goBytes (a :: rest) = utf8Bytes a ++ goBytes rest := by
      simp [goBytes, List.flatMap_cons]
    rw [e] at h
    have ha : a.toNat < 128 := by
      by_contra hn
      obtain ⟨x, more, hx, hge⟩ := utf8Bytes_head a hn
      have := h x (by rw [hx]; simp)
      omega
    intro c hc
    rcases List.mem_cons.mp hc with h1 | h1
    · rw [h1]; exact ha
    · exact ih (fun x hx => h x (List.mem_append_right _ hx)) c h1

/-! ## `validateDate` accepts exactly the strings that denote a date -/

theorem daysIn_eq_monthLength (y m : Nat) (h1 : 1 ≤ m) (h2 : m ≤ 12) :
    time.daysIn m y = Calendar.monthLength y m := by
  have hl : time.isLeap y = Calendar.leapYear y := by
    rw [Bool.eq_iff_iff]
    simp only [time.isLeap, Calendar.leapYear, Bool.and_eq_true, Bool.or_eq_true, beq_iff_eq,
      bne_iff_ne, ne_eq]
    omega
  interval_cases m <;> simp [time.daysIn, time.daysBefore, Calendar.monthLength, hl]

theorem string_of_bytes_ten (s : GoString) (b0 b1 b2 b3 b4 b5 b6 b7 b8 b9 : Nat)
    (h : s.map Char.toNat = [b0, b1, b2, b3, b4, b5, b6, b7, b8, b9]) :
    ∃ c0 c1 c2 c3 c4 c5 c6 c7 c8 c9 : Char, s = [c0, c1, c2, c3, c4, c5, c6, c7, c8, c9]
      ∧ c0.toNat = b0 ∧ c1.toNat = b1 ∧ c2.toNat = b2 ∧ c3.toNat = b3 ∧ c4.toNat = b4
      ∧ c5.toNat = b5 ∧ c6.toNat = b6 ∧ c7.toNat = b7 ∧ c8.toNat = b8 ∧ c9.toNat = b9 := by
  rcases s with _ | ⟨c0, _ | ⟨c1, _ | ⟨c2, _ | ⟨c3, _ | ⟨c4, _ | ⟨c5, _ | ⟨c6, _ | ⟨c7, _ |
    ⟨c8, _ | ⟨c9, _ | ⟨c10, rest⟩⟩⟩⟩⟩⟩⟩⟩⟩⟩⟩ <;> simp at h
  obtain ⟨h0, h1, h2, h3, h4, h5, h6, h7, h8, h9⟩ := h
  exact ⟨c0, c1, c2, c3, c4, c5, c6, c7, c8, c9, rfl, h0, h1, h2, h3, h4, h5, h6, h7, h8, h9⟩

theorem string_length_ten (s : GoString) (h : s.length = 10) :
    ∃ c0 c1 c2 c3 c4 c5 c6 c7 c8 c9 : Char, s = [c0, c1, c2, c3, c4, c5, c6, c7, c8, c9] := by
  rcases s with _ | ⟨c0, _ | ⟨c1, _ | ⟨c2, _ | ⟨c3, _ | ⟨c4, _ | ⟨c5, _ | ⟨c6, _ | ⟨c7, _ |
    ⟨c8, _ | ⟨c9, _ | ⟨c10, rest⟩⟩⟩⟩⟩⟩⟩⟩⟩⟩⟩ <;> simp at h
  exact ⟨c0, c1, c2, c3, c4, c5, c6, c7, c8, c9, rfl⟩

/-- The shape of a string of ten characters that denotes a date, character by character. -/
theorem denotesDate_ten (c0 c1 c2 c3 c4 c5 c6 c7 c8 c9 : Char) :
    DenotesDate [c0, c1, c2, c3, c4, c5, c6, c7, c8, c9] ↔
      (isDigitByte c0.toNat ∧ isDigitByte c1.toNat ∧ isDigitByte c2.toNat ∧ isDigitByte c3.toNat
        ∧ c4.toNat = 45 ∧ isDigitByte c5.toNat ∧ isDigitByte c6.toNat ∧ c7.toNat = 45
        ∧ isDigitByte c8.toNat ∧ isDigitByte c9.toNat
        ∧ 1 ≤ bytesTwo c5.toNat c6.toNat ∧ bytesTwo c5.toNat c6.toNat ≤ 12
        ∧ 1 ≤ bytesTwo c8.toNat c9.toNat
        ∧ bytesTwo c8.toNat c9.toNat ≤ Calendar.monthLength
            (bytesYear c0.toNat c1.toNat c2.toNat c3.toNat) (bytesTwo c5.toNat c6.toNat)) := by
  have a0 : '0'.toNat = 48 := rfl
  have a9 : '9'.toNat = 57 := rfl
  have hy : isoYear [c0, c1, c2, c3, c4, c5, c6, c7, c8, c9]
      = bytesYear c0.toNat c1.toNat c2.toNat c3.toNat := by
    simp only [isoYear, fieldValue, List.take, List.foldl, digitValue, a0, bytesYear]
    omega
  have hm : isoMonth [c0, c1, c2, c3, c4, c5, c6, c7, c8, c9] = bytesTwo c5.toNat c6.toNat := by
    simp only [isoMonth, fieldValue, List.take, List.drop, List.foldl, digitValue, a0, bytesTwo]
    omega
  have hd : isoDay [c0, c1, c2, c3, c4, c5, c6, c7, c8, c9] = bytesTwo c8.toNat c9.toNat := by
    simp only [isoDay, fieldValue, List.take, List.drop, List.foldl, digitValue, a0, bytesTwo]
    omega
  have h4 : c4 = '-' ↔ c4.toNat = 45 :=
    ⟨fun h => by rw [h]; rfl, fun h => char_ext_toNat _ _ (by rw [h]; rfl)⟩
  have h7 : c7 = '-' ↔ c7.toNat = 45 :=
    ⟨fun h => by rw [h]; rfl, fun h => char_ext_toNat _ _ (by rw [h]; rfl)⟩
  unfold DenotesDate
  rw [hy, hm, hd]
  simp only [List.length_cons, List.length_nil, isDigitChar, a0, a9, isDigitByte]
  constructor
  · rintro ⟨-, e4, e7, hdig, m1, m2, d1, d2⟩
    have g0 := hdig 0 (by omega) (by omega) (by omega)
    have g1 := hdig 1 (by omega) (by omega) (by omega)
    have g2 := hdig 2 (by omega) (by omega) (by omega)
    have g3 := hdig 3 (by omega) (by omega) (by omega)
    have g5 := hdig 5 (by omega) (by omega) (by omega)
    have g6 := hdig 6 (by omega) (by omega) (by omega)
    have g8 := hdig 8 (by omega) (by omega) (by omega)
    have g9 := hdig 9 (by omega) (by omega) (by omega)
    simp only [List.getElem?_cons_zero, List.getElem?_cons_succ, Option.some.injEq,
      exists_eq_left'] at g0 g1 g2 g3 g5 g6 g8 g9 e4 e7
    exact ⟨g0, g1, g2, g3, h4.mp e4, g5, g6, h7.mp e7, g8, g9, m1, m2, d1, d2⟩
  · rintro ⟨g0, g1, g2, g3, e4, g5, g6, e7, g8, g9, m1, m2, d1, d2⟩
    refine ⟨trivial, ?_, ?_, ?_, m1, m2, d1, d2⟩
    · simp [h4.mpr e4]
    · simp [h7.mpr e7]
    · intro i hi i4 i7
      interval_cases i <;> simp_all

theorem validateDate_iff (s : GoString) : validateDate s = true ↔ DenotesDate s := by
  constructor
  · intro h
    unfold validateDate at h
    simp only at h
    split at h
    · cases h
    rename_i hg
    have hsome : (time.Parse (goBytes s)).isSome = true := h
    obtain ⟨t, ht⟩ := Option.isSome_iff_exists.mp hsome
    obtain ⟨b0, b1, b2, b3, b4, b5, b6, b7, b8, b9, hb⟩ :=
      list_length_ten _ (Parse_some_length _ _ ht)
    rw [hb, Parse_ten] at ht
    split at ht
    swap
    · cases ht
    rename_i hbig
    obtain ⟨h0, h1, h2, h3, h4, h5, h6, h7, h8, h9, hm1, hm2, hd1, hd2⟩ := hbig
    have hascii : ∀ x ∈ goBytes s, x < 128 := by
      rw [hb]
      unfold isDigitByte at h0 h1 h2 h3 h5 h6 h8 h9
      intro x hx
      simp only [List.mem_cons, List.mem_singleton, List.not_mem_nil, or_false] at hx
      omega
    have hmap := goBytes_ascii s (ascii_of_goBytes s hascii)
    rw [hb] at hmap
    obtain ⟨c0, c1, c2, c3, c4, c5, c6, c7, c8, c9, hs, e0, e1, e2, e3, e4, e5, e6, e7, e8, e9⟩ :=
      string_of_bytes_ten s _ _ _ _ _ _ _ _ _ _ hmap.symm
    rw [hs, denotesDate_ten, e0, e1, e2, e3, e4, e5, e6, e7, e8, e9,
      ← daysIn_eq_monthLength _ _ hm1 hm2]
    exact ⟨h0, h1, h2, h3, h4, h5, h6, h7, h8, h9, hm1, hm2, hd1, hd2⟩
  · intro h
    obtain ⟨c0, c1, c2, c3, c4, c5, c6, c7, c8, c9, hs⟩ := string_length_ten s h.1
    rw [hs] at h ⊢
    rw [denotesDate_ten] at h
    obtain ⟨h0, h1, h2, h3, h4, h5, h6, h7, h8, h9, hm1, hm2, hd1, hd2⟩ := h
    have hb : goBytes [c0, c1, c2, c3, c4, c5, c6, c7, c8, c9] = [c0.toNat, c1.toNat, c2.toNat,
        c3.toNat, c4.toNat, c5.toNat, c6.toNat, c7.toNat, c8.toNat, c9.toNat] := by
      rw [goBytes_ascii]
      · rfl
      · unfold isDigitByte at h0 h1 h2 h3 h5 h6 h8 h9
        intro c hc
        simp only [List.mem_cons, List.mem_singleton, List.not_mem_nil, or_false] at hc
        rcases hc with h | h | h | h | h | h | h | h | h | h <;> rw [h] <;> omega
    rw [← daysIn_eq_monthLength _ _ hm1 hm2] at hd2
    have hp := Parse_ten c0.toNat c1.toNat c2.toNat c3.toNat c4.toNat c5.toNat c6.toNat c7.toNat
      c8.toNat c9.toNat
    rw [if_pos ⟨h0, h1, h2, h3, h4, h5, h6, h7, h8, h9, hm1, hm2, hd1, hd2⟩] at hp
    unfold validateDate
    simp only [hb, hp]
    simp [h4, h7]

/-! ## `time.Date` and `time.Format` -/

theorem absYearDay_decomp (a b c e k : Nat) (hb : b ≤ 3) (hc : c ≤ 24) (he : e ≤ 3)
    (hk : k < 365 ∨ (k = 365 ∧ e = 3 ∧ (c ≠ 24 ∨ b = 3))) :
    time.absYearDay ((146097 * a + 36524 * b + 1461 * c + 365 * e + k) * 86400)
      = (400 * a + 100 * b + 4 * c + e - 292277022399, k) := by
  simp only [time.absYearDay, time.secondsPerDay, time.daysPer400Years, time.daysPer100Years,
    time.daysPer4Years, time.absoluteYearOffset, Nat.reduceMul, Nat.reduceAdd]
  rw [Nat.mul_div_cancel _ (by norm_num : 0 < 86400)]
  have h1 : (146097 * a + 36524 * b + 1461 * c + 365 * e + k) / 146097 = a := by omega
  rw [h1]
  have h2 : 146097 * a + 36524 * b + 1461 * c + 365 * e + k - 146097 * a
      = 36524 * b + 1461 * c + 365 * e + k := by omega
  rw [h2]
  have h3 : (36524 * b + 1461 * c + 365 * e + k) / 36524
      - (36524 * b + 1461 * c + 365 * e + k) / 36524 / 4 = b := by
    rcases hk with hk | ⟨hk, he3, hcb⟩
    · have hr : 1461 * c + 365 * e + k < 36524 := by omega
      have hq : (36524 * b + 1461 * c + 365 * e + k) / 36524 = b := by omega
      rw [hq]; omega
    · by_cases hc24 : c = 24
      · have hb3 : b = 3 := by omega
        subst hc24; subst hb3; subst he3; subst hk
        norm_num
      · have hr : 1461 * c + 365 * e + k < 36524 := by omega
        have hq : (36524 * b + 1461 * c + 365 * e + k) / 36524 = b := by omega
        rw [hq]; omega
  rw [h3]
  have h4 : 36524 * b + 1461 * c + 365 * e + k - 36524 * b = 1461 * c + 365 * e + k := by omega
  rw [h4]
  have h5 : (1461 * c + 365 * e + k) / 1461 = c := by omega
  rw [h5]
  have h6 : 1461 * c + 365 * e + k - 1461 * c = 365 * e + k := by omega
  rw [h6]
  have h7 : (365 * e + k) / 365 - (365 * e + k) / 365 / 4 = e := by
    rcases hk with hk | ⟨hk, he3, -⟩
    · have hq : (365 * e + k) / 365 = e := by omega
      rw [hq]; omega
    · subst he3; subst hk
      norm_num
  rw [h7]
  have h8 : 365 * e + k - 365 * e = k := by omega
  rw [h8]

theorem daysSinceEpoch_decomp (y : Nat) :
    time.daysSinceEpoch y = 146097 * ((y + 292277022399) / 400)
      + 36524 * ((y + 292277022399) % 400 / 100)
      + 1461 * ((y + 292277022399) % 100 / 4) + 365 * ((y + 292277022399) % 4) := by
  simp only [time.daysSinceEpoch, time.daysPer400Years, time.daysPer100Years,
    time.daysPer4Years, time.absoluteYearOffset, Nat.reduceMul, Nat.reduceAdd]
  have e1 : y + 292277022399 - 400 * ((y + 292277022399) / 400) = (y + 292277022399) % 400 := by
    omega
  rw [e1]
  have e2 : (y + 292277022399) % 400 - 100 * ((y + 292277022399) % 400 / 100)
      = (y + 292277022399) % 100 := by omega
  rw [e2]
  have e3 : (y + 292277022399) % 100 - 4 * ((y + 292277022399) % 100 / 4)
      = (y + 292277022399) % 4 := by omega
  rw [e3]

theorem isLeap_iff (y : Nat) :
    time.isLeap y = true ↔ y % 4 = 0 ∧ (y % 100 ≠ 0 ∨ y % 400 = 0) := by
  simp [time.isLeap]

theorem absYearDay_epoch (y k : Nat)
    (hk : k < 365 ∨ (k = 365 ∧ time.isLeap y = true)) :
    time.absYearDay ((time.daysSinceEpoch y + k) * 86400) = (y, k) := by
  rw [isLeap_iff] at hk
  rw [daysSinceEpoch_decomp, absYearDay_decomp]
  · rw [Prod.mk.injEq]
    exact ⟨by omega, rfl⟩
  · omega
  · omega
  · omega
  · omega

theorem Date_abs (y m d : Nat) :
    (time.Date y m d).abs = (time.daysSinceEpoch y + dayOfYear y m d) * 86400 := by
  simp only [time.Date, dayOfYear, time.secondsPerDay]
  split <;> simp only [Nat.add_assoc]

theorem absDate_Date (y m d : Nat) (hm1 : 1 ≤ m) (hm2 : m ≤ 12) (hd1 : 1 ≤ d)
    (hd2 : d ≤ Calendar.monthLength y m) : time.absDate (time.Date y m d).abs = (y, m, d) := by
  have hl : Calendar.leapYear y = time.isLeap y := by
    rw [Bool.eq_iff_iff]
    simp only [time.isLeap, Calendar.leapYear, Bool.and_eq_true, Bool.or_eq_true, beq_iff_eq,
      bne_iff_ne, ne_eq]
    omega
  rw [Date_abs]
  have hk : dayOfYear y m d < 365 ∨ (dayOfYear y m d = 365 ∧ time.isLeap y = true) := by
    unfold dayOfYear
    cases hleap : time.isLeap y <;> interval_cases m <;>
      simp [time.daysBefore, Calendar.monthLength, hl, hleap] at hd2 ⊢ <;> omega
  simp only [time.absDate, absYearDay_epoch y _ hk]
  unfold dayOfYear
  cases hleap : time.isLeap y <;> interval_cases m <;>
    simp only [time.daysBefore, Calendar.monthLength, hl, hleap, Bool.false_and, Bool.true_and,
      Bool.false_eq_true, if_false, if_true, List.getD_cons_zero, List.getD_cons_succ,
      Nat.reduceSub, Nat.reduceAdd, ge_iff_le, Nat.reduceLeDiff, decide_True, decide_False,
      Nat.zero_add] at hd2 ⊢
  all_goals (interval_cases d <;> rfl)

theorem leapYear_eq_isLeap (y : Nat) : Calendar.leapYear y = time.isLeap y := by
  rw [Bool.eq_iff_iff]
  simp only [time.isLeap, Calendar.leapYear, Bool.and_eq_true, Bool.or_eq_true, beq_iff_eq,
    bne_iff_ne, ne_eq]
  omega

theorem daysSinceEpoch_succ (y : Nat) :
    time.daysSinceEpoch (y + 1) = time.daysSinceEpoch y + Calendar.yearLength y := by
  rw [daysSinceEpoch_decomp, daysSinceEpoch_decomp]
  have hl : Calendar.leapYear y = true ↔ y % 4 = 0 ∧ (y % 100 ≠ 0 ∨ y % 400 = 0) := by
    rw [leapYear_eq_isLeap, isLeap_iff]
  unfold Calendar.yearLength
  generalize hY : y + 292277022399 = Y
  have e : y + 1 + 292277022399 = Y + 1 := by omega
  rw [e]
  have m4 : y % 4 = (Y + 1) % 4 := by omega
  have m100 : y % 100 = (Y + 1) % 100 := by omega
  have m400 : y % 400 = (Y + 1) % 400 := by omega
  rw [m4, m100, m400] at hl
  by_cases h400 : (Y + 1) % 400 = 0
  · have h1 : Calendar.leapYear y = true := hl.mpr ⟨by omega, Or.inr h400⟩
    rw [h1, if_pos rfl]
    omega
  · by_cases h100 : (Y + 1) % 100 = 0
    · have h1 : ¬ (Calendar.leapYear y = true) := fun h => by
        have := hl.mp h
        omega
      rw [if_neg h1]
      omega
    · by_cases h4 : (Y + 1) % 4 = 0
      · have h1 : Calendar.leapYear y = true := hl.mpr ⟨h4, Or.inl h100⟩
        rw [h1, if_pos rfl]
        omega
      · have h1 : ¬ (Calendar.leapYear y = true) := fun h => by
          have := hl.mp h
          omega
        rw [if_neg h1]
        omega

theorem daysSinceEpoch_zero : time.daysSinceEpoch 0 = 106751990353566 := by
  rw [daysSinceEpoch_decomp]

theorem weekday_of_seconds (n : Nat) :
    (n * 86400 + 1 * 86400) % 604800 / 86400 = (n + 1) % 7 := by
  omega

theorem daysSinceEpoch_eq (y : Nat) :
    time.daysSinceEpoch y = 106751990353566 + Calendar.daysBeforeYear y := by
  induction y with
  | zero => rw [daysSinceEpoch_zero]; rfl
  | succ n ih => rw [daysSinceEpoch_succ, ih, Calendar.daysBeforeYear]; omega

theorem dayOfYear_eq (y m d : Nat) (hm1 : 1 ≤ m) (hm2 : m ≤ 12) :
    dayOfYear y m d = Calendar.daysInFirstMonths y (m - 1) + (d - 1) := by
  unfold dayOfYear
  congr 1
  cases hleap : time.isLeap y <;> interval_cases m <;>
    simp [time.daysBefore, Calendar.daysInFirstMonths, Calendar.monthLength,
      leapYear_eq_isLeap, hleap]

theorem absWeekday_Date (y m d : Nat) (hm1 : 1 ≤ m) (hm2 : m ≤ 12) :
    time.absWeekday (time.Date y m d).abs = Calendar.weekday y m d := by
  rw [Date_abs, daysSinceEpoch_eq, dayOfYear_eq y m d hm1 hm2]
  simp only [time.absWeekday, Calendar.weekday, Calendar.dayNumber, time.secondsPerDay,
    time.secondsPerWeek]
  rw [weekday_of_seconds]
  omega

theorem appendInt_two (n : Nat) (h : n < 100) : time.appendInt n 2 = twoDigits n := by
  simp [time.appendInt, h, time.digitChar, twoDigits]

theorem appendInt_four (n : Nat) (h : n < 10000) : time.appendInt n 4 = fourDigits n := by
  have e1 : n / 100 / 10 = n / 1000 := by omega
  have e2 : n % 100 / 10 = n / 10 % 10 := by omega
  have e3 : n % 100 % 10 = n % 10 := by omega
  simp [time.appendInt, h, time.digitChar, fourDigits, e1, e2, e3]

theorem dayName_abbr (w : Nat) (h : w < 7) :
    (time.longDayNames.getD w "").toList.take 3 = (Calendar.weekdayAbbr.getD w "").toList := by
  interval_cases w <;> rfl

theorem monthName_abbr (m : Nat) (h1 : 1 ≤ m) (h2 : m ≤ 12) :
    (time.longMonthNames.getD (m - 1) "").toList.take 3
      = (Calendar.monthAbbr.getD (m - 1) "").toList := by
  interval_cases m <;> rfl

theorem monthLength_le (y m : Nat) : Calendar.monthLength y m ≤ 31 := by
  unfold Calendar.monthLength
  split <;> try omega
  split <;> omega

theorem Format_Date (y m d : Nat) (hy : y ≤ 9999) (hm1 : 1 ≤ m) (hm2 : m ≤ 12) (hd1 : 1 ≤ d)
    (hd2 : d ≤ Calendar.monthLength y m) : time.Format (time.Date y m d) = rssText y m d := by
  have hd3 := monthLength_le y m
  have hw : Calendar.weekday y m d < 7 := by unfold Calendar.weekday; omega
  have hz : (time.Date y m d).abs % time.secondsPerDay = 0 := by
    rw [Date_abs]; simp [time.secondsPerDay]
  have z2 : time.appendInt 0 2 = ['0', '0'] := by decide
  simp only [time.Format, absDate_Date y m d hm1 hm2 hd1 hd2, absWeekday_Date y m d hm1 hm2, hz,
    Nat.zero_div, Nat.zero_mod, z2, appendInt_two d (by omega), appendInt_four y (by omega),
    dayName_abbr _ hw, monthName_abbr m hm1 hm2, rssText]
  simp only [List.append_assoc]
  rfl

/-! ## `formatRSSDate` -/

theorem isoFields_ten (c0 c1 c2 c3 c4 c5 c6 c7 c8 c9 : Char) :
    isoYear [c0, c1, c2, c3, c4, c5, c6, c7, c8, c9]
        = bytesYear c0.toNat c1.toNat c2.toNat c3.toNat
    ∧ isoMonth [c0, c1, c2, c3, c4, c5, c6, c7, c8, c9] = bytesTwo c5.toNat c6.toNat
    ∧ isoDay [c0, c1, c2, c3, c4, c5, c6, c7, c8, c9] = bytesTwo c8.toNat c9.toNat := by
  have a0 : '0'.toNat = 48 := rfl
  refine ⟨?_, ?_, ?_⟩
  · simp only [isoYear, fieldValue, List.take, List.foldl, digitValue, a0, bytesYear]
    omega
  · simp only [isoMonth, fieldValue, List.take, List.drop, List.foldl, digitValue, a0, bytesTwo]
    omega
  · simp only [isoDay, fieldValue, List.take, List.drop, List.foldl, digitValue, a0, bytesTwo]
    omega

theorem Parse_of_denotes (s : GoString) (h : DenotesDate s) :
    time.Parse (goBytes s) = some (time.Date (isoYear s) (isoMonth s) (isoDay s))
      ∧ isoYear s ≤ 9999 := by
  obtain ⟨c0, c1, c2, c3, c4, c5, c6, c7, c8, c9, hs⟩ := string_length_ten s h.1
  have hmonth : 1 ≤ isoMonth s ∧ isoMonth s ≤ 12 := ⟨h.2.2.2.2.1, h.2.2.2.2.2.1⟩
  have hday := h.2.2.2.2.2.2
  rw [hs] at h hmonth hday ⊢
  rw [denotesDate_ten] at h
  obtain ⟨h0, h1, h2, h3, h4, h5, h6, h7, h8, h9, hm1, hm2, hd1, hd2⟩ := h
  obtain ⟨ey, em, ed⟩ := isoFields_ten c0 c1 c2 c3 c4 c5 c6 c7 c8 c9
  have hb : goBytes [c0, c1, c2, c3, c4, c5, c6, c7, c8, c9] = [c0.toNat, c1.toNat, c2.toNat,
      c3.toNat, c4.toNat, c5.toNat, c6.toNat, c7.toNat, c8.toNat, c9.toNat] := by
    rw [goBytes_ascii]
    · rfl
    · unfold isDigitByte at h0 h1 h2 h3 h5 h6 h8 h9
      intro c hc
      simp only [List.mem_cons, List.mem_singleton, List.not_mem_nil, or_false] at hc
      rcases hc with h | h | h | h | h | h | h | h | h | h <;> rw [h] <;> omega
  rw [← daysIn_eq_monthLength _ _ hm1 hm2] at hd2
  rw [hb, Parse_ten, if_pos ⟨h0, h1, h2, h3, h4, h5, h6, h7, h8, h9, hm1, hm2, hd1, hd2⟩,
    ey, em, ed]
  refine ⟨rfl, ?_⟩
  unfold isDigitByte at h0 h1 h2 h3
  unfold bytesYear
  omega

theorem validateDate_of_Parse (s : GoString) (t : time.Time)
    (h : time.Parse (goBytes s) = some t) : validateDate s = true := by
  obtain ⟨b0, b1, b2, b3, b4, b5, b6, b7, b8, b9, hb⟩ :=
    list_length_ten _ (Parse_some_length _ _ h)
  have h2 := h
  rw [hb, Parse_ten] at h2
  split at h2
  swap
  · cases h2
  rename_i hbig
  have h3 : (time.Parse (goBytes s)).isSome = true := by rw [h]; rfl
  unfold validateDate
  simp only [h3]
  rw [hb]
  simp [hbig.2.2.2.2.1, hbig.2.2.2.2.2.2.2.1]

theorem formatRSSDate_of_valid (s : GoString) (h : validateDate s = true) :
    formatRSSDate s = some (rssText (isoYear s) (isoMonth s) (isoDay s)) := by
  have hd := (validateDate_iff s).mp h
  obtain ⟨hp, hy⟩ := Parse_of_denotes s hd
  unfold formatRSSDate
  rw [hp]
  simp only
  rw [Format_Date _ _ _ hy hd.2.2.2.2.1 hd.2.2.2.2.2.1 hd.2.2.2.2.2.2.1 hd.2.2.2.2.2.2.2]

theorem formatRSSDate_of_invalid (s : GoString) (h : ¬ DenotesDate s) :
    formatRSSDate s = none := by
  unfold formatRSSDate
  cases hp : time.Parse (goBytes s) with
  | none => rfl
  | some t => exact absurd ((validateDate_iff s).mp (validateDate_of_Parse s t hp)) h

/-! ## `formatDisplayDate` -/

theorem digit_not_space (c : Char) (h : isDigitChar c) :
    unicode.IsSpace c = false ∧ c ≠ '\r' ∧ c ≠ '\n' ∧ c ≠ '+' ∧ c ≠ '-' ∧ c ≠ '_'
      ∧ fmt.isDecimalDigit c = true := by
  have a0 : '0'.toNat = 48 := rfl
  have a9 : '9'.toNat = 57 := rfl
  unfold isDigitChar at h
  rw [a0, a9] at h
  have ne : ∀ x : Char, (x.toNat < 48 ∨ 57 < x.toNat) → c ≠ x := by
    intro x hx e
    rw [e] at h
    omega
  refine ⟨?_, ne _ (by decide), ne _ (by decide), ne _ (by decide), ne _ (by decide),
    ne _ (by decide), ?_⟩
  · simp only [unicode.IsSpace, Bool.or_eq_false_iff, beq_eq_false_iff_ne, ne_eq,
      Bool.and_eq_false_imp, decide_eq_true_eq, decide_eq_false_iff_not]
    omega
  · simp only [fmt.isDecimalDigit, a0, a9, Bool.and_eq_true, decide_eq_true_eq]
    exact h

theorem skipSpace_digit (c : Char) (rest : GoString) (h : isDigitChar c) :
    fmt.skipSpace (c :: rest) = some (c :: rest) := by
  obtain ⟨h1, h2, h3, -⟩ := digit_not_space c h
  simp [fmt.skipSpace, h1, h2, h3]

theorem parseDigits_digits (ds : GoString) (h : ∀ c ∈ ds, isDigitChar c) : ∀ x : Nat,
    fmt.parseDigits x ds = some (ds.foldl (fun n c => 10 * n + digitValue c) x) := by
  induction ds with
  | nil => intro x; rfl
  | cons c rest ih =>
    intro x
    have hc := (digit_not_space c (h c (List.mem_cons_self _ _))).2.2.2.2.2.2
    have e : x * 10 + (c.toNat - 48) = 10 * x + digitValue c := by
      have a0 : '0'.toNat = 48 := rfl
      simp only [digitValue, a0]; omega
    simp only [fmt.parseDigits, hc, if_true, List.foldl_cons, e]
    exact ih (fun c hc => h c (List.mem_cons_of_mem _ hc)) _

theorem takeWhile_digits (ds rest : GoString) (h : ∀ c ∈ ds, isDigitChar c)
    (hr : rest = [] ∨ rest.head? = some '-') :
    (ds ++ rest).takeWhile fmt.isDecimalDigit = ds
    ∧ (ds ++ rest).dropWhile fmt.isDecimalDigit = rest := by
  induction ds with
  | nil =>
    rcases hr with hr | hr
    · subst hr; exact ⟨rfl, rfl⟩
    · cases rest with
      | nil => exact ⟨rfl, rfl⟩
      | cons a more =>
        simp only [List.head?_cons, Option.some.injEq] at hr
        subst hr
        refine ⟨?_, ?_⟩
        · rw [List.nil_append, List.takeWhile_cons]
          have : fmt.isDecimalDigit '-' = false := by decide
          rw [this]; rfl
        · rw [List.nil_append, List.dropWhile_cons]
          have : fmt.isDecimalDigit '-' = false := by decide
          rw [this]; rfl
  | cons c more ih =>
    have hc := (digit_not_space c (h c (List.mem_cons_self _ _))).2.2.2.2.2.2
    have ih2 := ih (fun c hc => h c (List.mem_cons_of_mem _ hc))
    simp only [List.cons_append, List.takeWhile_cons, List.dropWhile_cons, hc,
      if_true, ih2.1, ih2.2, and_self]

theorem scanInt_digits (c : Char) (ds rest : GoString) (h : ∀ x ∈ c :: ds, isDigitChar x)
    (hr : rest = [] ∨ rest.head? = some '-') (hb : fieldValue (c :: ds) < 2 ^ 63) :
    fmt.scanInt (c :: ds ++ rest) = some ((fieldValue (c :: ds) : Int), rest) := by
  have hc := h c (List.mem_cons_self _ _)
  obtain ⟨-, -, -, hp, hm, -, -⟩ := digit_not_space c hc
  obtain ⟨ht, hd⟩ := takeWhile_digits (c :: ds) rest h hr
  have hpd := parseDigits_digits (c :: ds) h 0
  have hb2 : ¬ (fieldValue (c :: ds) ≥ 2 ^ 63) := by omega
  unfold fmt.scanInt
  rw [List.cons_append, skipSpace_digit c (ds ++ rest) hc]
  have hplus : (c == '+') = false := by simp [hp]
  have hneg : (c == '-') = false := by simp [hm]
  simp only [hplus, hneg, Bool.or_self, Bool.false_eq_true, if_false]
  rw [← List.cons_append, ht, hd, hpd]
  simp only [List.isEmpty_cons, Bool.false_eq_true, if_false, ← fieldValue.eq_1, hb2]

theorem Sscanf3_ten (c0 c1 c2 c3 c5 c6 c8 c9 : Char)
    (h : ∀ x ∈ [c0, c1, c2, c3, c5, c6, c8, c9], isDigitChar x) :
    fmt.Sscanf3 [c0, c1, c2, c3, '-', c5, c6, '-', c8, c9]
      = ((fieldValue [c0, c1, c2, c3] : Int), (fieldValue [c5, c6] : Int),
          (fieldValue [c8, c9] : Int)) := by
  have a0 : '0'.toNat = 48 := rfl
  have a9 : '9'.toNat = 57 := rfl
  have bound : ∀ x ∈ [c0, c1, c2, c3, c5, c6, c8, c9], digitValue x ≤ 9 := by
    intro x hx
    have := h x hx
    simp only [isDigitChar, a0, a9] at this
    simp only [digitValue, a0]
    omega
  simp only [List.mem_cons, List.mem_singleton, List.not_mem_nil, or_false, forall_eq_or_imp,
    forall_eq] at h bound
  obtain ⟨h0, h1, h2, h3, h5, h6, h8, h9⟩ := h
  obtain ⟨g0, g1, g2, g3, g5, g6, g8, g9⟩ := bound
  have s1 := scanInt_digits c0 [c1, c2, c3] ['-', c5, c6, '-', c8, c9]
    (by simp [h0, h1, h2, h3]) (Or.inr rfl)
    (by simp only [fieldValue, List.foldl]; omega)
  have s2 := scanInt_digits c5 [c6] ['-', c8, c9] (by simp [h5, h6]) (Or.inr rfl)
    (by simp only [fieldValue, List.foldl]; omega)
  have s3 := scanInt_digits c8 [c9] [] (by simp [h8, h9]) (Or.inl rfl)
    (by simp only [fieldValue, List.foldl]; omega)
  simp only [List.cons_append, List.nil_append, List.append_nil] at s1 s2 s3
  simp only [fmt.Sscanf3, s1, fmt.matchHyphen, s2, s3]

theorem formatInt_natCast (n : Nat) : fmt.formatInt (n : Int) = (Nat.repr n).toList := by
  have h : ¬ ((n : Int) < 0) := by omega
  simp only [fmt.formatInt, h, if_false, Int.toNat_ofNat, Nat.repr, List.asString]
  rfl

theorem monthName_head (m : Nat) (h1 : 1 ≤ m) (h2 : m ≤ 12) :
    ∃ c rest, (Calendar.monthName.getD (m - 1) "").toList = c :: rest ∧ ¬ isDigitChar c := by
  interval_cases m <;> exact ⟨_, _, rfl, by decide⟩

theorem formatDisplayDate_of_valid (s : GoString) (h : validateDate s = true) :
    fmt.Sscanf3 s = ((isoYear s : Int), (isoMonth s : Int), (isoDay s : Int))
      ∧ formatDisplayDate s = displayText (isoYear s) (isoMonth s) (isoDay s)
      ∧ formatDisplayDate s ≠ s := by
  have hd := (validateDate_iff s).mp h
  obtain ⟨c0, c1, c2, c3, c4, c5, c6, c7, c8, c9, hs⟩ := string_length_ten s hd.1
  have hm1 := hd.2.2.2.2.1
  have hm2 := hd.2.2.2.2.2.1
  have hdig := hd.2.2.2.1
  have e4 := hd.2.1
  have e7 := hd.2.2.1
  rw [hs] at hm1 hm2 hdig e4 e7 ⊢
  simp only [List.getElem?_cons_zero, List.getElem?_cons_succ, Option.some.injEq] at e4 e7
  subst e4; subst e7
  have g0 := hdig 0 (by omega) (by omega) (by omega)
  have g1 := hdig 1 (by omega) (by omega) (by omega)
  have g2 := hdig 2 (by omega) (by omega) (by omega)
  have g3 := hdig 3 (by omega) (by omega) (by omega)
  have g5 := hdig 5 (by omega) (by omega) (by omega)
  have g6 := hdig 6 (by omega) (by omega) (by omega)
  have g8 := hdig 8 (by omega) (by omega) (by omega)
  have g9 := hdig 9 (by omega) (by omega) (by omega)
  simp only [List.getElem?_cons_zero, List.getElem?_cons_succ, Option.some.injEq,
    exists_eq_left'] at g0 g1 g2 g3 g5 g6 g8 g9
  have hscan := Sscanf3_ten c0 c1 c2 c3 c5 c6 c8 c9 (by simp [g0, g1, g2, g3, g5, g6, g8, g9])
  have ey : fieldValue [c0, c1, c2, c3] = isoYear [c0, c1, c2, c3, '-', c5, c6, '-', c8, c9] := rfl
  have em : fieldValue [c5, c6] = isoMonth [c0, c1, c2, c3, '-', c5, c6, '-', c8, c9] := rfl
  have ed : fieldValue [c8, c9] = isoDay [c0, c1, c2, c3, '-', c5, c6, '-', c8, c9] := rfl
  rw [ey, em, ed] at hscan
  generalize isoYear [c0, c1, c2, c3, '-', c5, c6, '-', c8, c9] = y at *
  generalize isoMonth [c0, c1, c2, c3, '-', c5, c6, '-', c8, c9] = m at *
  generalize isoDay [c0, c1, c2, c3, '-', c5, c6, '-', c8, c9] = d at *
  have hrange : ¬ (((m : Int) < 1 || (m : Int) > 12) = true) := by
    simp only [Bool.or_eq_true, decide_eq_true_eq]; omega
  have hidx : ((m : Int) - 1).toNat = m - 1 := by omega
  have hval : formatDisplayDate [c0, c1, c2, c3, '-', c5, c6, '-', c8, c9]
      = displayText y m d := by
    unfold formatDisplayDate
    rw [hscan]
    simp only [hrange, if_false, hidx, formatInt_natCast, displayText]
    rfl
  refine ⟨hscan, hval, ?_⟩
  rw [hval]
  obtain ⟨c, rest, hc, hnd⟩ := monthName_head m hm1 hm2
  intro heq
  simp only [displayText, hc, List.cons_append, List.cons.injEq] at heq
  exact hnd (heq.1 ▸ g0)

/-! ## `strings.Index` finds the first occurrence -/

theorem Index_some (sep : GoString) (s : GoString) : ∀ i : Nat, strings.Index s sep = some i →
    sep <+: s.drop i ∧ ∀ k, k < i → ¬ (sep <+: s.drop k) := by
  induction s with
  | nil =>
    intro i h
    simp only [strings.Index] at h
    split at h
    · rename_i he
      simp only [Option.some.injEq] at h
      subst h
      have : sep = [] := by simpa using he
      subst this
      exact ⟨by simp, fun k hk => by omega⟩
    · cases h
  | cons c rest ih =>
    intro i h
    simp only [strings.Index] at h
    split at h
    · rename_i hp
      simp only [Option.some.injEq] at h
      subst h
      exact ⟨by simpa using List.isPrefixOf_iff_prefix.mp hp, fun k hk => by omega⟩
    · rename_i hp
      cases hr : strings.Index rest sep with
      | none => rw [hr] at h; cases h
      | some j =>
        rw [hr] at h
        simp only [Option.map_some', Option.some.injEq] at h
        subst h
        obtain ⟨h1, h2⟩ := ih j hr
        refine ⟨by simpa using h1, ?_⟩
        intro k hk
        cases k with
        | zero =>
          intro hpre
          exact hp (List.isPrefixOf_iff_prefix.mpr (by simpa using hpre))
        | succ k2 =>
          simpa using h2 k2 (by omega)

theorem Index_none (sep : GoString) (s : GoString) (h : strings.Index s sep = none) :
    ¬ (sep <:+: s) := by
  induction s with
  | nil =>
    simp only [strings.Index] at h
    split at h
    · cases h
    · rename_i he
      intro hinf
      have : sep = [] := by simpa using hinf
      subst this
      simp at he
  | cons c rest ih =>
    simp only [strings.Index] at h
    split at h
    · cases h
    · rename_i hp
      cases hr : strings.Index rest sep with
      | some j => rw [hr] at h; cases h
      | none =>
        intro hinf
        rcases List.infix_cons_iff.mp hinf with h1 | h1
        · exact hp (List.isPrefixOf_iff_prefix.mpr h1)
        · exact ih hr h1

theorem Index_of_infix (sep s : GoString) (h : sep <:+: s) :
    ∃ i, strings.Index s sep = some i := by
  cases hr : strings.Index s sep with
  | none => exact absurd h (Index_none sep s hr)
  | some i => exact ⟨i, rfl⟩

theorem split_at_occurrence (sep s : GoString) (i : Nat) (h : sep <+: s.drop i) :
    s.take (i + sep.length) = s.take i ++ sep
      ∧ s = s.take i ++ sep ++ s.drop (i + sep.length) := by
  obtain ⟨t, ht⟩ := h
  by_cases hle : i ≤ s.length
  · have e1 : s = s.take i ++ (sep ++ t) := by rw [ht, List.take_append_drop]
    have hlen : (s.take i).length = i := by rw [List.length_take]; omega
    have e2 : s.take (i + sep.length) = s.take i ++ sep := by
      conv_lhs => rw [e1]
      rw [List.take_append_eq_append_take, hlen]
      simp [List.take_of_length_le]
    have e3 : s.drop (i + sep.length) = t := by
      conv_lhs => rw [e1]
      rw [List.drop_append_eq_append_drop, hlen]
      simp [List.drop_of_length_le]
    exact ⟨e2, by rw [e3, List.append_assoc]; exact e1⟩
  · have hd : s.drop i = [] := List.drop_eq_nil_of_le (by omega)
    rw [hd] at ht
    have hs : sep = [] := by
      cases sep with
      | nil => rfl
      | cons a b => simp at ht
    subst hs
    simp only [List.length_nil, Nat.add_zero, List.append_nil, hd, and_true]
    rw [List.take_of_length_le (by omega)]
    exact ⟨trivial, rfl⟩

/-! ## Running `updateIndexAndFeed` -/

theorem isEmpty_false_of_ne (s : GoString) (h : s ≠ []) : s.isEmpty = false := by
  cases s with
  | nil => exact absurd rfl h
  | cons a b => rfl

theorem isEmpty_true_of_eq (s : GoString) (h : s = []) : s.isEmpty = true := by
  subst h; rfl

theorem update_run (T : unicode.Tables) (path html : GoString) (st : Site)
    (hp : st.post = some html) (hc : PassesCheck T html) :
    updateIndexAndFeed T path st = syncBody T path html st := by
  obtain ⟨h1, h2, h3, h4⟩ := hc
  have hrss := formatRSSDate_of_valid _ h4
  unfold updateIndexAndFeed syncBody
  rw [hp]
  simp only [isEmpty_false_of_ne _ h1, isEmpty_false_of_ne _ h2, isEmpty_false_of_ne _ h3, h4,
    Bool.false_eq_true, if_false, Bool.not_true, Bool.or_self, hrss]
  cases hi : st.index with
  | none => rfl
  | some ix =>
    simp only
    cases hidx : strings.Index ix listMarker with
    | none => rfl
    | some idx =>
      simp only
      cases hf : st.feed with
      | none =>
        simp only [listFragment, slugOf, titleForHTML, List.append_assoc]
      | some fd =>
        simp only
        cases hj : strings.Index fd itemMarker with
        | none => simp only [listFragment, slugOf, titleForHTML, List.append_assoc]
        | some j =>
          simp only [listFragment, feedFragment, slugOf, titleForHTML, List.append_assoc, hrss,
            Option.getD_some]

/-! ## The first `<item>` after the insertion -/

theorem itemMarker_prefix_before_space (r x : GoString)
    (h : itemMarker <+: r ++ ' ' :: x) : itemMarker <+: r := by
  have hm : itemMarker = ['<', 'i', 't', 'e', 'm', '>'] := rfl
  rw [hm] at h ⊢
  rcases r with _ | ⟨r0, _ | ⟨r1, _ | ⟨r2, _ | ⟨r3, _ | ⟨r4, _ | ⟨r5, more⟩⟩⟩⟩⟩⟩
  all_goals simp only [List.nil_append, List.cons_append, List.cons_prefix_cons] at h
  · exact absurd h.1 (by decide)
  · exact absurd h.2.1 (by decide)
  · exact absurd h.2.2.1 (by decide)
  · exact absurd h.2.2.2.1 (by decide)
  · exact absurd h.2.2.2.2.1 (by decide)
  · exact absurd h.2.2.2.2.2.1 (by decide)
  · simp only [List.cons_prefix_cons]
    exact ⟨h.1, h.2.1, h.2.2.1, h.2.2.2.1, h.2.2.2.2.1, h.2.2.2.2.2.1, List.nil_prefix⟩

theorem Index_cons (c : Char) (rest sep : GoString) :
    strings.Index (c :: rest) sep =
      if sep.isPrefixOf (c :: rest) then some 0
      else (strings.Index rest sep).map (fun i => i + 1) := rfl

theorem Index_after_insert (tail post : GoString) (pre : GoString)
    (h : strings.Index (pre ++ post) itemMarker = some pre.length) :
    strings.Index (pre ++ ("    <item>".toList ++ tail) ++ post) itemMarker
      = some (pre.length + 4) := by
  have hn : "    <item>".toList = [' ', ' ', ' ', ' ', '<', 'i', 't', 'e', 'm', '>'] := rfl
  have hm : itemMarker = ['<', 'i', 't', 'e', 'm', '>'] := rfl
  induction pre with
  | nil =>
    rw [hn, hm]
    simp [strings.Index, List.isPrefixOf]
  | cons c rest ih =>
    rw [List.cons_append, Index_cons] at h
    split at h
    · simp at h
    rename_i hp
    cases hr : strings.Index (rest ++ post) itemMarker with
    | none => rw [hr] at h; cases h
    | some j =>
      rw [hr] at h
      simp only [Option.map_some', Option.some.injEq, List.length_cons] at h
      have hj : j = rest.length := by omega
      subst hj
      have hnp : ¬ (itemMarker.isPrefixOf (c :: (rest ++ ("    <item>".toList ++ tail) ++ post))
          = true) := by
        intro hpre
        have h1 := List.isPrefixOf_iff_prefix.mp hpre
        rw [hn] at h1
        have h2 : itemMarker <+: (c :: rest) ++ ' ' ::
            ([' ', ' ', ' ', '<', 'i', 't', 'e', 'm', '>'] ++ tail ++ post) := by
          simpa using h1
        have h3 := itemMarker_prefix_before_space _ _ h2
        have h4 : itemMarker <+: c :: (rest ++ post) :=
          h3.trans (by simp)
        exact hp (List.isPrefixOf_iff_prefix.mpr h4)
      rw [List.cons_append, List.cons_append, Index_cons, if_neg hnp, ih hr]
      simp only [Option.map_some', List.length_cons]

theorem feedFragment_shape (T : unicode.Tables) (path html : GoString) :
    ∃ tail, feedFragment T path html = "    <item>".toList ++ tail := by
  unfold feedFragment newItem
  have e : "    <item>\n      <title>".toList = "    <item>".toList ++ "\n      <title>".toList := by
    decide
  rw [e]
  simp only [List.append_assoc]
  exact ⟨_, rfl⟩

theorem titleForHTML_eq (t : GoString) : titleForHTML t = t.flatMap textEscapeChar := by
  have e1 : "&".toList = ['&'] := rfl
  have e2 : "<".toList = ['<'] := rfl
  unfold titleForHTML
  rw [e1, e2, replaceAll_single, replaceAll_single]
  induction t with
  | nil => rfl
  | cons c rest ih =>
    simp only [List.flatMap_cons, List.flatMap_append, ih]
    congr 1
    by_cases h1 : c = '&'
    · subst h1; decide
    · by_cases h2 : c = '<'
      · subst h2; decide
      · simp [textEscapeChar, h1, h2]

theorem textEscape_eq_escapeHTML (t : GoString) (h : ∀ c ∈ t, c ≠ '>' ∧ c ≠ '"') :
    t.flatMap textEscapeChar = escapeHTML t := by
  rw [escapeHTML_eq_flatMap]
  induction t with
  | nil => rfl
  | cons c rest ih =>
    have hc := h c (List.mem_cons_self _ _)
    simp only [List.flatMap_cons, ih (fun x hx => h x (List.mem_cons_of_mem _ hx))]
    congr 1
    simp only [textEscapeChar, escapeChar, hc.1, hc.2, if_false]

/-! ## The claims -/

/-- Claim C1 fails as stated: `slugify("café")` is `café`, since the loop keeps every
letter and number of Unicode, and `é` is none of `a`-`z`, `0`-`9`, `-`. -/
theorem slugify_claim_fails :
    slugify unicode.latin1 "café".toList = "café".toList
    ∧ ¬ SlugWellFormed (slugify unicode.latin1 "café".toList) := by
  have e3 : slugify unicode.latin1 "café".toList = "café".toList := by decide
  refine ⟨e3, ?_⟩
  rw [e3]; intro h
  have := h.1 'é' (by decide)
  revert this; decide

/-- Claim C1, amended. For every title, every character of `slugify(title)` is a hyphen or
the lower-case form of a character of the title, itself a letter or a number for Go, and no
two hyphens stand side by side; for a title of ASCII characters the slug is made of `a`-`z`,
`0`-`9` and `-` only; for a title of Latin-1 characters every character of the slug is its
own lower-case form; and the slug does not start (does not end) with a hyphen when the
string built by the filtering loop does not start (does not end) with two hyphens. -/
theorem slugify_shape (T : unicode.Tables) (s : GoString) :
    (∀ c ∈ slugify T s, c = '-' ∨ ((unicode.IsLetter T c = true ∨ unicode.IsNumber T c = true)
        ∧ ∃ x ∈ s, c = unicode.ToLower T x))
    ∧ ¬ (['-', '-'] <:+: slugify T s)
    ∧ ((∀ x ∈ s, x.toNat < 128) → ∀ c ∈ slugify T s, c = '-' ∨ isLowerAlnum c = true)
    ∧ ((∀ x ∈ s, x.toNat ≤ 0xFF) → ∀ c ∈ slugify T s, unicode.ToLower T c = c)
    ∧ (¬ (['-', '-'] <+: slugBuilder T s) → (slugify T s).head? ≠ some '-')
    ∧ (¬ (['-', '-'] <:+ slugBuilder T s) → (slugify T s).getLast? ≠ some '-') :=
  ⟨fun c h => slugify_lower_image T s c h,
   slugify_noHyphenPair T s,
   fun hs c h => slugify_ascii T s hs c h,
   fun hs c h => slugify_lower_fixed T s hs c h,
   slugify_head T s, slugify_last T s⟩

theorem slugify_shape_witness :
    SlugWellFormed (slugify unicode.latin1 "Hello, World!".toList)
    ∧ (∀ c ∈ slugify unicode.latin1 "Hello, World!".toList,
        unicode.ToLower unicode.latin1 c = c) := by
  have h := slugify_shape unicode.latin1 "Hello, World!".toList
  exact ⟨⟨h.2.2.1 (by decide), h.2.2.2.2.1 (by decide), h.2.2.2.2.2 (by decide), h.2.1⟩,
    h.2.2.2.1 (by decide)⟩

/-- Claim C2. A post from which the title, the description or a date accepted by
`validateDate` cannot be extracted makes `updateIndexAndFeed` fail with the `could not
extract` error of a field that is indeed missing, and leaves the three files as they were;
with title and description present the error is the date one. -/
theorem updateIndexAndFeed_missing_field (T : unicode.Tables) (path html : GoString) (st : Site)
    (hp : st.post = some html) (h : ¬ PassesCheck T html) :
    ∃ e, updateIndexAndFeed T path st = (st, some e)
      ∧ ((e = .noTitle ∧ extractTitle T html = []
            ∧ e.message = some "could not extract title from post")
          ∨ (e = .noDescription ∧ extractDescription T html = []
            ∧ e.message = some "could not extract description from post")
          ∨ (e = .noDate
            ∧ (extractDateRaw T html = [] ∨ validateDate (extractDateRaw T html) = false)
            ∧ e.message = some "could not extract date (article:published_time YYYY-MM-DD)"))
      ∧ (extractTitle T html ≠ [] → extractDescription T html ≠ [] → e = .noDate) := by
  unfold updateIndexAndFeed
  rw [hp]
  by_cases h1 : extractTitle T html = []
  · refine ⟨.noTitle, ?_, Or.inl ⟨rfl, h1, rfl⟩, fun hne => absurd h1 hne⟩
    simp only [isEmpty_true_of_eq _ h1, if_true]
  · by_cases h2 : extractDescription T html = []
    · refine ⟨.noDescription, ?_, Or.inr (Or.inl ⟨rfl, h2, rfl⟩), fun _ hne => absurd h2 hne⟩
      simp only [isEmpty_false_of_ne _ h1, isEmpty_true_of_eq _ h2, Bool.false_eq_true, if_false,
        if_true]
    · have h3 : extractDateRaw T html = [] ∨ validateDate (extractDateRaw T html) = false := by
        by_cases h3 : extractDateRaw T html = []
        · exact Or.inl h3
        · right
          cases hv : validateDate (extractDateRaw T html) with
          | false => rfl
          | true => exact absurd ⟨h1, h2, h3, hv⟩ h
      refine ⟨.noDate, ?_, Or.inr (Or.inr ⟨rfl, h3, rfl⟩), fun _ _ => rfl⟩
      have hg : ((extractDateRaw T html).isEmpty || !validateDate (extractDateRaw T html))
          = true := by
        rcases h3 with h3 | h3
        · simp [h3]
        · simp [h3]
      simp only [isEmpty_false_of_ne _ h1, isEmpty_false_of_ne _ h2, Bool.false_eq_true, if_false,
        hg, if_true]

theorem updateIndexAndFeed_missing_field_witness :
    updateIndexAndFeed unicode.latin1 samplePath
        { post := some undatedPost, index := some sampleIndex, feed := some sampleFeed }
      = ({ post := some undatedPost, index := some sampleIndex, feed := some sampleFeed },
          some .noDate) := by
  obtain ⟨e, he, -, hd⟩ := updateIndexAndFeed_missing_field unicode.latin1 samplePath undatedPost
    { post := some undatedPost, index := some sampleIndex, feed := some sampleFeed } rfl
    (by decide)
  rw [he, hd (by decide) (by decide)]

/-- Claim C3. With the required fields present and the list marker in the homepage, the new
homepage is the old one with one fragment inserted right after the first occurrence of the
marker: the old text up to and including the marker starts the new document, the old text
after the marker ends it. Without the marker the call fails and nothing is written. -/
theorem updateIndexAndFeed_index_splice (T : unicode.Tables) (path html ix : GoString)
    (st : Site) (hp : st.post = some html) (hc : PassesCheck T html)
    (hi : st.index = some ix) :
    (listMarker <:+: ix → ∃ pre post, ix = pre ++ listMarker ++ post
        ∧ (∀ k, k < pre.length → ¬ (listMarker <+: ix.drop k))
        ∧ (updateIndexAndFeed T path st).1.index
            = some (pre ++ listMarker ++ listFragment T path html ++ post)
        ∧ (pre ++ listMarker) <+: pre ++ listMarker ++ listFragment T path html ++ post
        ∧ post <:+ pre ++ listMarker ++ listFragment T path html ++ post)
    ∧ (¬ (listMarker <:+: ix) → updateIndexAndFeed T path st = (st, some .noList)) := by
  rw [update_run T path html st hp hc]
  unfold syncBody
  rw [hi]
  constructor
  · intro hl
    obtain ⟨idx, hidx⟩ := Index_of_infix _ _ hl
    obtain ⟨hpre, hfirst⟩ := Index_some _ _ _ hidx
    obtain ⟨e1, e2⟩ := split_at_occurrence _ _ _ hpre
    have hlen : (ix.take idx).length = idx := by
      have hm : listMarker.length = 22 := rfl
      have := congrArg List.length e2
      simp only [List.length_append, List.length_take, List.length_drop, hm] at this
      rw [List.length_take]; omega
    refine ⟨ix.take idx, ix.drop (idx + listMarker.length), e2, ?_, ?_, ?_, ?_⟩
    · intro k hk; rw [hlen] at hk; exact hfirst k hk
    · simp only [hidx]
      cases st.feed with
      | none => simp only [e1]
      | some fd =>
        simp only
        cases strings.Index fd itemMarker with
        | none => simp only [e1]
        | some j => simp only [e1]
    · exact ⟨listFragment T path html ++ ix.drop (idx + listMarker.length), by
        simp only [List.append_assoc]⟩
    · exact ⟨ix.take idx ++ listMarker ++ listFragment T path html, rfl⟩
  · intro hl
    cases hidx : strings.Index ix listMarker with
    | none => simp only [hidx]
    | some idx =>
      exact absurd ⟨_, _, (split_at_occurrence _ _ _ (Index_some _ _ _ hidx).1).2.symm⟩ hl

theorem updateIndexAndFeed_index_splice_witness :
    (∃ pre post, sampleIndex = pre ++ listMarker ++ post
        ∧ (∀ k, k < pre.length → ¬ (listMarker <+: sampleIndex.drop k))
        ∧ (updateIndexAndFeed unicode.latin1 samplePath sampleSite).1.index
            = some (pre ++ listMarker ++ listFragment unicode.latin1 samplePath samplePost ++ post)
        ∧ (pre ++ listMarker)
            <+: pre ++ listMarker ++ listFragment unicode.latin1 samplePath samplePost ++ post
        ∧ post <:+ pre ++ listMarker ++ listFragment unicode.latin1 samplePath samplePost ++ post)
    ∧ updateIndexAndFeed unicode.latin1 samplePath { sampleSite with index := some sampleFeed }
        = ({ sampleSite with index := some sampleFeed }, some .noList) :=
  ⟨(updateIndexAndFeed_index_splice unicode.latin1 samplePath samplePost sampleIndex sampleSite
      rfl (by decide) rfl).1 (by decide),
   (updateIndexAndFeed_index_splice unicode.latin1 samplePath samplePost sampleFeed
      { sampleSite with index := some sampleFeed } rfl (by decide) rfl).2 (by decide)⟩

/-- Claim C4. With the required fields present and `<item>` in the feed, the feed that
`updateIndexAndFeed` writes is the old one with the new item inserted right before the first
`<item>`, the text before and after unchanged: the first `<item>` of the new feed is the one
that opens the inserted fragment (after its four spaces of indentation), and the old first
item comes right after the fragment. The feed is written, and the call succeeds, when the
homepage holds the list marker; otherwise the feed stays as it was. -/
theorem updateIndexAndFeed_feed_splice (T : unicode.Tables) (path html fd : GoString)
    (st : Site) (hp : st.post = some html) (hc : PassesCheck T html)
    (hf : st.feed = some fd) (hm : itemMarker <:+: fd) :
    ∃ pre post, fd = pre ++ post ∧ itemMarker <+: post
      ∧ (∀ k, k < pre.length → ¬ (itemMarker <+: fd.drop k))
      ∧ ((∃ ix, st.index = some ix ∧ listMarker <:+: ix) →
          (updateIndexAndFeed T path st).2 = none
          ∧ (updateIndexAndFeed T path st).1.feed
              = some (pre ++ feedFragment T path html ++ post))
      ∧ ((updateIndexAndFeed T path st).1.feed = some fd
          ∨ (updateIndexAndFeed T path st).1.feed
              = some (pre ++ feedFragment T path html ++ post))
      ∧ strings.Index (pre ++ feedFragment T path html ++ post) itemMarker
          = some (pre.length + 4)
      ∧ itemMarker <+: (feedFragment T path html).drop 4 := by
  rw [update_run T path html st hp hc]
  unfold syncBody
  obtain ⟨j, hj⟩ := Index_of_infix _ _ hm
  obtain ⟨hpre, hfirst⟩ := Index_some _ _ _ hj
  have hjlen : (fd.take j).length = j := by
    have hmk : itemMarker.length = 6 := rfl
    have := congrArg List.length (split_at_occurrence _ _ _ hpre).2
    simp only [List.length_append, List.length_take, List.length_drop, hmk] at this
    rw [List.length_take]; omega
  obtain ⟨tail, htail⟩ := feedFragment_shape T path html
  refine ⟨fd.take j, fd.drop j, (List.take_append_drop j fd).symm, hpre, ?_, ?_, ?_, ?_, ?_⟩
  · intro k hk; rw [hjlen] at hk; exact hfirst k hk
  · rintro ⟨ix, hi, hl⟩
    obtain ⟨idx, hidx⟩ := Index_of_infix _ _ hl
    rw [hi]
    simp only [hidx, hf, hj, and_self]
  · cases hi : st.index with
    | none => left; simp only [hf]
    | some ix =>
      cases hidx : strings.Index ix listMarker with
      | none => left; simp only [hidx, hf]
      | some idx => right; simp only [hidx, hf, hj]
  · rw [htail]
    have := Index_after_insert tail (fd.drop j) (fd.take j)
      (by rw [List.take_append_drop, hjlen]; exact hj)
    rw [hjlen] at this ⊢
    exact this
  · rw [htail]
    exact ⟨tail, rfl⟩

theorem updateIndexAndFeed_feed_splice_witness :
    ∃ pre post, sampleFeed = pre ++ post ∧ itemMarker <+: post
      ∧ (∀ k, k < pre.length → ¬ (itemMarker <+: sampleFeed.drop k))
      ∧ ((∃ ix, sampleSite.index = some ix ∧ listMarker <:+: ix) →
          (updateIndexAndFeed unicode.latin1 samplePath sampleSite).2 = none
          ∧ (updateIndexAndFeed unicode.latin1 samplePath sampleSite).1.feed
              = some (pre ++ feedFragment unicode.latin1 samplePath samplePost ++ post))
      ∧ ((updateIndexAndFeed unicode.latin1 samplePath sampleSite).1.feed = some sampleFeed
          ∨ (updateIndexAndFeed unicode.latin1 samplePath sampleSite).1.feed
              = some (pre ++ feedFragment unicode.latin1 samplePath samplePost ++ post))
      ∧ strings.Index (pre ++ feedFragment unicode.latin1 samplePath samplePost ++ post)
          itemMarker = some (pre.length + 4)
      ∧ itemMarker <+: (feedFragment unicode.latin1 samplePath samplePost).drop 4 :=
  updateIndexAndFeed_feed_splice unicode.latin1 samplePath samplePost sampleFeed
    sampleSite rfl (by decide) rfl (by decide)

/-- Claim C5. With the required fields present and the list marker in the homepage, a feed
that cannot be read or has no `<item>` makes the call return an error after the homepage has
been rewritten with the new list item: the feed and the post are as before, and the
homepage, now different from the old one, is not rolled back. -/
theorem updateIndexAndFeed_no_rollback (T : unicode.Tables) (path html ix : GoString)
    (st : Site) (hp : st.post = some html) (hc : PassesCheck T html)
    (hi : st.index = some ix) (hl : listMarker <:+: ix)
    (hf : st.feed = none ∨ ∃ fd, st.feed = some fd ∧ ¬ (itemMarker <:+: fd)) :
    ∃ e pre post, ix = pre ++ listMarker ++ post
      ∧ updateIndexAndFeed T path st
          = ({ st with index := some (pre ++ listMarker ++ listFragment T path html ++ post) },
              some e)
      ∧ (e = .readFeed ∨ e = .noItem)
      ∧ pre ++ listMarker ++ listFragment T path html ++ post ≠ ix := by
  rw [update_run T path html st hp hc]
  unfold syncBody
  rw [hi]
  obtain ⟨idx, hidx⟩ := Index_of_infix _ _ hl
  obtain ⟨hpre, -⟩ := Index_some _ _ _ hidx
  obtain ⟨e1, e2⟩ := split_at_occurrence _ _ _ hpre
  have hne : ix.take idx ++ listMarker ++ listFragment T path html
      ++ ix.drop (idx + listMarker.length) ≠ ix := by
    intro heq
    have h1 := congrArg List.length heq
    have h2 := congrArg List.length e2
    simp only [List.length_append] at h1 h2
    have h3 : 0 < (listFragment T path html).length := by
      unfold listFragment
      simp only [List.length_append]
      have : ("\n".toList).length = 1 := rfl
      omega
    omega
  rcases hf with hf | ⟨fd, hf, hno⟩
  · refine ⟨.readFeed, ix.take idx, ix.drop (idx + listMarker.length), e2, ?_, Or.inl rfl, hne⟩
    simp only [hidx, hf, e1]
  · have hj : strings.Index fd itemMarker = none := by
      cases hj : strings.Index fd itemMarker with
      | none => rfl
      | some j =>
        exact absurd ⟨_, _, (split_at_occurrence _ _ _ (Index_some _ _ _ hj).1).2.symm⟩ hno
    refine ⟨.noItem, ix.take idx, ix.drop (idx + listMarker.length), e2, ?_, Or.inr rfl, hne⟩
    simp only [hidx, hf, hj, e1]

theorem updateIndexAndFeed_no_rollback_witness :
    (∃ e pre post, sampleIndex = pre ++ listMarker ++ post
      ∧ updateIndexAndFeed unicode.latin1 samplePath { sampleSite with feed := none }
          = ({ sampleSite with
                index := some (pre ++ listMarker
                  ++ listFragment unicode.latin1 samplePath samplePost ++ post)
                feed := none }, some e)
      ∧ (e = .readFeed ∨ e = .noItem)
      ∧ pre ++ listMarker ++ listFragment unicode.latin1 samplePath samplePost ++ post
          ≠ sampleIndex)
    ∧ (∃ e pre post, sampleIndex = pre ++ listMarker ++ post
      ∧ updateIndexAndFeed unicode.latin1 samplePath { sampleSite with feed := some sampleIndex }
          = ({ sampleSite with
                index := some (pre ++ listMarker
                  ++ listFragment unicode.latin1 samplePath samplePost ++ post)
                feed := some sampleIndex }, some e)
      ∧ (e = .readFeed ∨ e = .noItem)
      ∧ pre ++ listMarker ++ listFragment unicode.latin1 samplePath samplePost ++ post
          ≠ sampleIndex) :=
  ⟨updateIndexAndFeed_no_rollback unicode.latin1 samplePath samplePost sampleIndex
      { sampleSite with feed := none } rfl (by decide) rfl (by decide) (Or.inl rfl),
   updateIndexAndFeed_no_rollback unicode.latin1 samplePath samplePost sampleIndex
      { sampleSite with feed := some sampleIndex } rfl (by decide) rfl (by decide)
      (Or.inr ⟨sampleIndex, rfl, by decide⟩)⟩

/-- Claim C6. `escapeHTML` and `escapeXML` are the same function, and it is the single-pass
substitution that writes `&amp;` for `&`, `&lt;` for `<`, `&gt;` for `>`, `&quot;` for `"`
and keeps every other character: no `&` produced by a replacement is escaped again. -/
theorem escape_single_pass (s : GoString) :
    escapeHTML s = escapeXML s ∧ escapeHTML s = s.flatMap escapeChar
      ∧ escapeXML s = s.flatMap escapeChar :=
  ⟨rfl, escapeHTML_eq_flatMap s, escapeHTML_eq_flatMap s⟩

set_option maxRecDepth 4000 in
/-- Claim C7 fails as stated: the link text of the list item is not `escapeHTML(title)` when
the title holds a `>`. The title `a>b` is inserted as `a>b`, while `escapeHTML` gives
`a&gt;b`. -/
theorem linkText_not_escapeHTML :
    extractTitle unicode.latin1 arrowPost = "a>b".toList
    ∧ (updateIndexAndFeed unicode.latin1 samplePath
          { post := some arrowPost, index := some sampleIndex, feed := some sampleFeed }).1.index
        = some ("<h1>Writing</h1>\n<ul class=\"post-list\">".toList ++ "\n".toList
            ++ newLi "January 1, 2026".toList "my-post".toList "a>b".toList
            ++ "\n<li>old</li>\n</ul>".toList)
    ∧ escapeHTML "a>b".toList = "a&gt;b".toList
    ∧ "a>b".toList ≠ escapeHTML "a>b".toList := by
  decide

/-- Claim C7, amended. The link text of the list item `updateIndexAndFeed` inserts is the
title with each `&` written `&amp;` and each `<` written `&lt;`, every other character
unchanged; it is `escapeHTML(title)` when the title holds neither `>` nor `"`. -/
theorem updateIndexAndFeed_linkText (T : unicode.Tables) (path html ix : GoString)
    (st : Site) (hp : st.post = some html) (hc : PassesCheck T html)
    (hi : st.index = some ix) (hl : listMarker <:+: ix) :
    ∃ pre post, ix = pre ++ listMarker ++ post
      ∧ (updateIndexAndFeed T path st).1.index
          = some (pre ++ listMarker ++ ("\n".toList
              ++ newLi (formatDisplayDate (extractDateRaw T html)) (slugOf path)
                  ((extractTitle T html).flatMap textEscapeChar)) ++ post)
      ∧ ((∀ c ∈ extractTitle T html, c ≠ '>' ∧ c ≠ '"') →
          (extractTitle T html).flatMap textEscapeChar = escapeHTML (extractTitle T html)) := by
  rw [update_run T path html st hp hc]
  unfold syncBody
  rw [hi]
  obtain ⟨idx, hidx⟩ := Index_of_infix _ _ hl
  obtain ⟨hpre, -⟩ := Index_some _ _ _ hidx
  obtain ⟨e1, e2⟩ := split_at_occurrence _ _ _ hpre
  refine ⟨ix.take idx, ix.drop (idx + listMarker.length), e2, ?_,
    textEscape_eq_escapeHTML _⟩
  rw [← titleForHTML_eq]
  simp only [hidx]
  cases st.feed with
  | none => simp only [e1, listFragment]
  | some fd =>
    simp only
    cases strings.Index fd itemMarker with
    | none => simp only [e1, listFragment]
    | some j => simp only [e1, listFragment]

theorem updateIndexAndFeed_linkText_witness :
    ∃ pre post, sampleIndex = pre ++ listMarker ++ post
      ∧ (updateIndexAndFeed unicode.latin1 samplePath sampleSite).1.index
          = some (pre ++ listMarker ++ ("\n".toList
              ++ newLi (formatDisplayDate (extractDateRaw unicode.latin1 samplePost))
                  (slugOf samplePath)
                  ((extractTitle unicode.latin1 samplePost).flatMap textEscapeChar)) ++ post)
      ∧ ((∀ c ∈ extractTitle unicode.latin1 samplePost, c ≠ '>' ∧ c ≠ '"') →
          (extractTitle unicode.latin1 samplePost).flatMap textEscapeChar
            = escapeHTML (extractTitle unicode.latin1 samplePost)) :=
  updateIndexAndFeed_linkText unicode.latin1 samplePath samplePost sampleIndex sampleSite
    rfl (by decide) rfl (by decide)

/-- Claim C8. `validateDate` accepts exactly the strings of ten characters with a hyphen at
positions 4 and 7 and digits elsewhere whose month is 01 to 12 and whose day lies within
the length of that month in that year; it rejects `2024-02-30`. -/
theorem validateDate_accepts_real_dates (s : GoString) :
    (validateDate s = true ↔ DenotesDate s) ∧ validateDate "2024-02-30".toList = false :=
  ⟨validateDate_iff s, by decide⟩

/-- Claim C9. On a string that `validateDate` accepts, `formatRSSDate` returns, without
error, the weekday of that day, its two-digit day, the month, the four-digit year and
midnight UTC; on a string that denotes no date it returns an error. -/
theorem formatRSSDate_spec (s : GoString) :
    (validateDate s = true →
        formatRSSDate s = some (rssText (isoYear s) (isoMonth s) (isoDay s)))
    ∧ (¬ DenotesDate s → formatRSSDate s = none) :=
  ⟨formatRSSDate_of_valid s, formatRSSDate_of_invalid s⟩

theorem formatRSSDate_spec_witness :
    formatRSSDate "2026-01-01".toList = some "Thu, 01 Jan 2026 00:00:00 +0000".toList
    ∧ formatRSSDate "2024-02-30".toList = none := by
  refine ⟨?_, (formatRSSDate_spec "2024-02-30".toList).2
    (fun h => absurd ((validateDate_iff _).mpr h) (by decide))⟩
  rw [(formatRSSDate_spec "2026-01-01".toList).1 (by decide)]
  have hw : Calendar.weekday 2026 1 1 = 4 := by
    rw [← absWeekday_Date 2026 1 1 (by decide) (by decide)]; decide
  have hy : isoYear "2026-01-01".toList = 2026 := by decide
  have hm : isoMonth "2026-01-01".toList = 1 := by decide
  have hd : isoDay "2026-01-01".toList = 1 := by decide
  rw [hy, hm, hd]
  unfold rssText
  rw [hw]
  decide

/-- Claim C10. On a string that `validateDate` accepts, `formatDisplayDate` reads the three
fields of the date, finds the month within 1 to 12, and returns the English name of the
month, the day and the year in decimal, which is not the input: the fallback is not
taken. -/
theorem formatDisplayDate_spec (s : GoString) (h : validateDate s = true) :
    formatDisplayDate s = displayText (isoYear s) (isoMonth s) (isoDay s)
      ∧ (fmt.Sscanf3 s).2.1 = (isoMonth s : Int)
      ∧ 1 ≤ isoMonth s ∧ isoMonth s ≤ 12
      ∧ formatDisplayDate s ≠ s := by
  obtain ⟨h1, h2, h3⟩ := formatDisplayDate_of_valid s h
  have hd := (validateDate_iff s).mp h
  exact ⟨h2, by rw [h1], hd.2.2.2.2.1, hd.2.2.2.2.2.1, h3⟩

theorem formatDisplayDate_spec_witness :
    formatDisplayDate "2026-02-23".toList = "February 23, 2026".toList
    ∧ formatDisplayDate "2026-01-01".toList = "January 1, 2026".toList := by
  have h1 := (formatDisplayDate_spec "2026-02-23".toList (by decide)).1
  have h2 := (formatDisplayDate_spec "2026-01-01".toList (by decide)).1
  rw [h1, h2]
  decide

/-! ## `normalizeSlug` and `slugify` -/

theorem normalizeLoop_eq (T : unicode.Tables) (l : GoString) : ∀ acc : GoString,
    l.foldl (fun (b : GoString) r =>
      if ('a'.toNat ≤ r.toNat && r.toNat ≤ 'z'.toNat)
          || ('0'.toNat ≤ r.toNat && r.toNat ≤ '9'.toNat) || r == '-' then b ++ [r]
      else if ('A'.toNat ≤ r.toNat && r.toNat ≤ 'Z'.toNat) || unicode.IsLetter T r then
        b ++ [unicode.ToLower T r]
      else if r == ' ' || r == '_' then b ++ ['-']
      else b) acc = acc ++ l.flatMap (normalizeKeep T) := by
  induction l with
  | nil => intro acc; simp
  | cons r rest ih =>
    intro acc
    simp only [List.foldl_cons, List.flatMap_cons, ih, normalizeKeep]
    split
    · simp
    · split
      · simp
      · split <;> simp

theorem normalizeBuilder_eq (T : unicode.Tables) (s : GoString) :
    normalizeBuilder T s = (strings.TrimSuffix s ".html".toList).flatMap (normalizeKeep T) := by
  unfold normalizeBuilder
  rw [normalizeLoop_eq]; simp

theorem keep_agree_latin1 (T : unicode.Tables) (n : Nat) (hn : n ≤ 255)
    (h : PlainSlugChar T (Char.ofNat n)) :
    normalizeKeep T (Char.ofNat n) = slugKeep T (unicode.ToLower T (Char.ofNat n)) := by
  obtain ⟨h1, h2, h3⟩ := h
  interval_cases n
  all_goals first
    | rfl
    | exact absurd rfl h1
    | exact absurd rfl h2
    | exact absurd (h3 rfl) (by decide)

theorem latin1_lowerKeepsClass : LowerKeepsClass unicode.latin1 := by
  intro c hc
  have hl : unicode.IsLetter unicode.latin1 c = false := by
    simp only [unicode.IsLetter, unicode.latin1]
    rw [if_neg (by omega)]
  have hn : unicode.IsNumber unicode.latin1 c = false := by
    simp only [unicode.IsNumber, unicode.latin1]
    rw [if_neg (by omega)]
  have hlow : unicode.ToLower unicode.latin1 c = c := by
    simp only [unicode.ToLower, unicode.latin1]
    rw [if_neg (by omega), if_neg (by omega)]
  rw [hlow]
  refine ⟨fun h => h, fun _ _ => ⟨hl, hn, ?_, ?_, ?_⟩⟩
  · intro h; rw [h] at hc; exact absurd hc (by decide)
  · intro h; rw [h] at hc; exact absurd hc (by decide)
  · intro h; rw [h] at hc; exact absurd hc (by decide)

theorem keep_agree_high (T : unicode.Tables) (hT : LowerKeepsClass T) (c : Char)
    (hc : 0xFF < c.toNat) (h : PlainSlugChar T c) :
    normalizeKeep T c = slugKeep T (unicode.ToLower T c) := by
  have hnum : unicode.IsNumber T c = false := by
    cases hb : unicode.IsNumber T c with
    | false => rfl
    | true =>
      have := (h.2.2 hb).2
      have h9 : '9'.toNat = 57 := rfl
      omega
  have ha : 'a'.toNat = 97 := rfl
  have hz : 'z'.toNat = 122 := rfl
  have h0 : '0'.toNat = 48 := rfl
  have h9 : '9'.toNat = 57 := rfl
  have hA : 'A'.toNat = 65 := rfl
  have hZ : 'Z'.toNat = 90 := rfl
  have hh : (c == '-') = false := by
    rw [beq_eq_false_iff_ne]; intro e; rw [e] at hc; exact absurd hc (by decide)
  have hs : (c == ' ') = false := by
    rw [beq_eq_false_iff_ne]; intro e; rw [e] at hc; exact absurd hc (by decide)
  have hu : (c == '_') = false := by
    rw [beq_eq_false_iff_ne]; exact h.1
  have c1 : (('a'.toNat ≤ c.toNat && c.toNat ≤ 'z'.toNat)
      || ('0'.toNat ≤ c.toNat && c.toNat ≤ '9'.toNat) || c == '-') = false := by
    rw [hh, ha, hz, h0, h9]
    have e1 : decide (c.toNat ≤ 122) = false := decide_eq_false (by omega)
    have e2 : decide (c.toNat ≤ 57) = false := decide_eq_false (by omega)
    simp only [e1, e2, Bool.and_false, Bool.or_false]
  have c2 : ('A'.toNat ≤ c.toNat && c.toNat ≤ 'Z'.toNat) = false := by
    rw [hA, hZ]
    have e1 : decide (c.toNat ≤ 90) = false := decide_eq_false (by omega)
    simp only [e1, Bool.and_false]
  unfold normalizeKeep slugKeep
  rw [c1, c2, hs, hu]
  cases hl : unicode.IsLetter T c with
  | true =>
    rw [(hT c hc).1 hl]
    rfl
  | false =>
    obtain ⟨g1, g2, g3, g4, g5⟩ := (hT c hc).2 hl hnum
    rw [g1, g2, beq_eq_false_iff_ne.mpr g3, beq_eq_false_iff_ne.mpr g4,
      beq_eq_false_iff_ne.mpr g5]
    rfl

theorem keep_agree (T : unicode.Tables) (hT : LowerKeepsClass T) (c : Char)
    (h : PlainSlugChar T c) :
    normalizeKeep T c = slugKeep T (unicode.ToLower T c) := by
  by_cases hc : c.toNat ≤ 255
  · have e := Char.ofNat_toNat c
    have := keep_agree_latin1 T c.toNat hc (by rw [e]; exact h)
    rw [e] at this
    exact this
  · exact keep_agree_high T hT c (by omega) h

theorem builders_agree (T : unicode.Tables) (hT : LowerKeepsClass T) (s : GoString)
    (htrim : strings.TrimSpace s = s) (hsuf : ¬ (".html".toList <:+ s))
    (hc : ∀ c ∈ s, PlainSlugChar T c) : normalizeBuilder T s = slugBuilder T s := by
  have hts : strings.TrimSuffix s ".html".toList = s := by
    unfold strings.TrimSuffix
    have : (".html".toList).isSuffixOf s = false := by
      cases hb : (".html".toList).isSuffixOf s with
      | false => rfl
      | true => exact absurd (List.isSuffixOf_iff_suffix.mp hb) hsuf
    rw [this]; rfl
  rw [normalizeBuilder_eq, slugBuilder_eq, hts, htrim, strings.ToLower]
  clear htrim hsuf hts
  induction s with
  | nil => rfl
  | cons c rest ih =>
    simp only [List.flatMap_cons, List.map_cons]
    rw [keep_agree T hT c (hc c (List.mem_cons_self _ _)),
      ih (fun x hx => hc x (List.mem_cons_of_mem _ hx))]

theorem normalizeSlug_eq_reference (T : unicode.Tables) (s d : GoString) :
    normalizeSlug T s d =
      if collapseHyphens false (stripEdge true (normalizeBuilder T s)) = [] then d
      else collapseHyphens false (stripEdge true (normalizeBuilder T s)) := by
  simp only [normalizeSlug, regexp.ReplaceAllString]
  have e1 : "".toList = ([] : GoString) := rfl
  have e2 : "-".toList = ['-'] := rfl
  rw [e1, e2, (replaceScan_hyphenRun _).1 0, replaceScan_edgeHyphen]
  have e3 : ((0 : Nat) == 0) = true := rfl
  rw [e3]
  cases collapseHyphens false (stripEdge true (normalizeBuilder T s)) with
  | nil => rfl
  | cons a b => rfl

/-- Claim C11 fails as stated: `normalizeSlug` maps `_` to a hyphen and cuts a final `.html`,
which `slugify` does not, and it neither trims white space, nor maps a tab to a hyphen, nor
keeps a number other than `0`-`9`, which `slugify` does. -/
theorem normalizeSlug_differs_from_slugify :
    normalizeSlug unicode.latin1 "a_b".toList "d".toList = "a-b".toList
    ∧ slugify unicode.latin1 "a_b".toList = "ab".toList
    ∧ normalizeSlug unicode.latin1 "post.html".toList "d".toList = "post".toList
    ∧ slugify unicode.latin1 "post.html".toList = "posthtml".toList
    ∧ normalizeSlug unicode.latin1 "  a".toList "d".toList = "-a".toList
    ∧ slugify unicode.latin1 "  a".toList = "a".toList
    ∧ normalizeSlug unicode.latin1 "a\tb".toList "d".toList = "ab".toList
    ∧ slugify unicode.latin1 "a\tb".toList = "a-b".toList
    ∧ normalizeSlug unicode.latin1 "x²".toList "d".toList = "x".toList
    ∧ slugify unicode.latin1 "x²".toList = "x²".toList
    ∧ ¬ (∀ s d : GoString,
        (slugify unicode.latin1 s ≠ [] → normalizeSlug unicode.latin1 s d = slugify unicode.latin1 s)
        ∧ (slugify unicode.latin1 s = [] → normalizeSlug unicode.latin1 s d = d)) := by
  refine ⟨by decide, by decide, by decide, by decide, by decide, by decide, by decide,
    by decide, by decide, by decide, ?_⟩
  intro h
  exact absurd ((h "a_b".toList "d".toList).1 (by decide)) (by decide)

/-- Claim C11, amended. `normalizeSlug(s, d)` is the string its own loop builds, cleaned by
the same two replacements as in `slugify`, or `d` when that is empty. With case tables in
which lowering keeps a letter a letter and leaves other characters outside the kept classes,
it equals `slugify(s)` when `slugify(s)` is not empty, and `d` when it is empty, for every
`s` that has no white space at either end, does not end in `.html`, and holds no `_`, no tab
and no number other than `0`-`9`. -/
theorem normalizeSlug_agrees (T : unicode.Tables) (s d : GoString) :
    (normalizeSlug T s d =
      if collapseHyphens false (stripEdge true (normalizeBuilder T s)) = [] then d
      else collapseHyphens false (stripEdge true (normalizeBuilder T s)))
    ∧ (LowerKeepsClass T → strings.TrimSpace s = s → ¬ (".html".toList <:+ s) →
        (∀ c ∈ s, PlainSlugChar T c) →
        (slugify T s ≠ [] → normalizeSlug T s d = slugify T s)
        ∧ (slugify T s = [] → normalizeSlug T s d = d)) := by
  refine ⟨normalizeSlug_eq_reference T s d, ?_⟩
  intro hT htrim hsuf hc
  rw [normalizeSlug_eq_reference, builders_agree T hT s htrim hsuf hc, ← slugify_eq_reference]
  exact ⟨fun h => if_neg h, fun h => if_pos h⟩

theorem normalizeSlug_agrees_witness :
    normalizeSlug unicode.latin1 "My Post".toList "d".toList = "my-post".toList
    ∧ normalizeSlug unicode.latin1 "→!".toList "d".toList = "d".toList := by
  have h1 := (normalizeSlug_agrees unicode.latin1 "My Post".toList "d".toList).2
    latin1_lowerKeepsClass (by decide) (by decide) (by decide)
  have h2 := (normalizeSlug_agrees unicode.latin1 "→!".toList "d".toList).2
    latin1_lowerKeepsClass (by decide) (by decide) (by decide)
  refine ⟨(h1.1 (by decide)).trans (by decide), h2.2 (by decide)⟩

end Postcli
